import Mathlib

/-!
Verification development for the VLM surgical agent framework.

This file gives a shallow embedding, in Lean, of the deterministic core of
the repository: the annotation schema normalizer
(`agents/annotation_agent.py`, `_normalize_annotation_json`), the fact
extractor and phase smoother (`agents/post_op_note_agent.py`,
`_extract_facts`), the note composer (`_build_final_json_from_facts`,
`generate_post_op_note`) and the JSON append helper
(`agents/base_agent.py`, `append_json_to_file`).

Python values that flow through these functions are modelled by the
inductive type `Jv` (JSON-like values; numbers are modelled as integers —
no claim under study depends on fractional values).  Python `str()`,
`.strip()`, `.lower()`, substring tests, `datetime.strptime` with format
"%Y-%m-%d %H:%M:%S", and the blood-loss regular expression are modelled
character-exactly for the ASCII fragment that the repository uses.
-/

/-- Model of the Python/JSON values handled by the agents.  Numbers are
modelled as integers. -/
inductive Jv where
  | null : Jv
  | bool : Bool → Jv
  | int : Int → Jv
  | str : String → Jv
  | arr : List Jv → Jv
  | obj : List (String × Jv) → Jv

/-- First-match association-list lookup, modelling Python `dict.get`. -/
def lookupA : List (String × Jv) → String → Option Jv
  | [], _ => none
  | (k, v) :: rest, key => if k = key then some v else lookupA rest key

/-- Model of `d.get(key)` (returning `none` for a missing key or a
non-dict receiver; Python `None` for a stored null is observationally the
same for every use in the repository). -/
def jvGet : Jv → String → Option Jv
  | .obj kvs, k => lookupA kvs k
  | _, _ => none

/-- Python truthiness (`bool(v)` is `False`) for the modelled values. -/
def jvFalsy : Jv → Bool
  | .null => true
  | .bool b => !b
  | .int n => n == 0
  | .str s => s == ""
  | .arr l => l.isEmpty
  | .obj l => l.isEmpty

/-- Whitespace as used by Python `str.strip` and the `\s` regex class,
restricted to ASCII (space, tab, newline, carriage return, vertical tab,
form feed). -/
def isPySpace (c : Char) : Bool :=
  c = ' ' || c = '\t' || c = '\n' || c = '\r' || c.toNat = 11 || c.toNat = 12

/-- Strip leading and trailing whitespace from a character list. -/
def stripChars (l : List Char) : List Char :=
  ((l.dropWhile isPySpace).reverse.dropWhile isPySpace).reverse

/-- Model of Python `str.strip()`. -/
def pyStrip (s : String) : String := (stripChars s.toList).asString

/-- Model of Python `str.lower()` (ASCII case folding). -/
def pyLower (s : String) : String := (s.toList.map Char.toLower).asString

/-- The single-quote character, used by the Python `repr` of strings. -/
def quoteChar : Char := Char.ofNat 39

/-- Comma-join used by Python container `repr`. -/
def joinComma (l : List String) : String := String.intercalate ", " l

mutual

/-- Model of Python `repr` for the embedded values (escaping inside
string `repr` is not modelled; no repository path depends on it). -/
def pyRepr : Jv → String
  | .null => "None"
  | .bool true => "True"
  | .bool false => "False"
  | .int n => toString n
  | .str s => String.singleton quoteChar ++ s ++ String.singleton quoteChar
  | .arr xs => "[" ++ joinComma (pyReprList xs) ++ "]"
  | .obj kvs => "\x7b" ++ joinComma (pyReprObj kvs) ++ "\x7d"

/-- `repr` of each element of a list. -/
def pyReprList : List Jv → List String
  | [] => []
  | x :: xs => pyRepr x :: pyReprList xs

/-- `repr` of each key/value pair of a dict. -/
def pyReprObj : List (String × Jv) → List String
  | [] => []
  | (k, v) :: kvs =>
      (String.singleton quoteChar ++ k ++ String.singleton quoteChar ++ ": " ++ pyRepr v)
        :: pyReprObj kvs

end

/-- Model of Python `str(v)`: identity on strings, `repr`-style otherwise. -/
def pyStr : Jv → String
  | .str s => s
  | v => pyRepr v

/-- Does the first list start with the second (the pattern)? -/
def startsWithL : List Char → List Char → Bool
  | _, [] => true
  | [], _ :: _ => false
  | c :: cs, p :: ps => c = p && startsWithL cs ps

/-- Substring occurrence test on character lists (pattern first). -/
def hasSubL (pat : List Char) : List Char → Bool
  | [] => pat.isEmpty
  | c :: rest => startsWithL (c :: rest) pat || hasSubL pat rest

/-- Model of Python `pat in s` (substring containment). -/
def strHasSub (s pat : String) : Bool := hasSubL pat.toList s.toList

/-- Replace every non-overlapping occurrence of `old` (assumed non-empty
at every call site, as in the source) by `new`, scanning left to right.
The fuel argument (instantiated with the input length, an upper bound on
the number of steps) keeps the recursion structural. -/
def replaceFuel (old new : List Char) : Nat → List Char → List Char
  | 0, l => l
  | _ + 1, [] => []
  | f + 1, c :: rest =>
    if old ≠ [] ∧ startsWithL (c :: rest) old then
      new ++ replaceFuel old new f (rest.drop (old.length - 1))
    else c :: replaceFuel old new f rest

/-- Model of Python `str.replace(old, new)`. -/
def pyReplace (s old new : String) : String :=
  (replaceFuel old.toList new.toList s.toList.length s.toList).asString

/-- Greedy digit scanner: consume up to `fuel` leading decimal digits,
returning the accumulated value, the number of digits consumed and the
rest of the input. -/
def takeDigitsA : Nat → Nat → Nat → List Char → (Nat × Nat × List Char)
  | 0, acc, cnt, l => (acc, cnt, l)
  | _ + 1, acc, cnt, [] => (acc, cnt, [])
  | f + 1, acc, cnt, c :: rest =>
    if c.isDigit then takeDigitsA f (acc * 10 + (c.toNat - 48)) (cnt + 1) rest
    else (acc, cnt, c :: rest)

/-- Expect one specific character. -/
def expectChar (c : Char) : List Char → Option (List Char)
  | x :: rest => if x = c then some rest else none
  | [] => none

/-- Expect one or more whitespace characters (a literal blank in a
`strptime` format string matches any positive run of whitespace). -/
def expectWs : List Char → Option (List Char)
  | x :: rest => if isPySpace x then some (rest.dropWhile isPySpace) else none
  | [] => none

/-- Gregorian leap-year test. -/
def isLeapYear (y : Nat) : Bool :=
  y % 4 = 0 && (y % 100 ≠ 0 || y % 400 = 0)

/-- Days in a month of the proleptic Gregorian calendar. -/
def daysInMonth (y m : Nat) : Nat :=
  if m = 2 then (if isLeapYear y then 29 else 28)
  else [31, 28, 31, 30, 31, 30, 31, 31, 30, 31, 30, 31].getD (m - 1) 0

/-- Cumulative days before month `m` in year `y`. -/
def daysBeforeMonth (y m : Nat) : Nat :=
  [0, 31, 59, 90, 120, 151, 181, 212, 243, 273, 304, 334].getD (m - 1) 0
    + (if 2 < m && isLeapYear y then 1 else 0)

/-- Encode a date-time as seconds since 0001-01-01 00:00:00 (the value of
Python `datetime.min`, which therefore encodes to 0); differences of the
encoding agree with `timedelta.total_seconds()`. -/
def encodeDT (y m d h mi s : Nat) : Int :=
  let yp := y - 1
  let days := 365 * yp + yp / 4 - yp / 100 + yp / 400 + daysBeforeMonth y m + (d - 1)
  ((days * 86400 + h * 3600 + mi * 60 + s : Nat) : Int)

/-- Model of `PostOpNoteAgent._parse_ts`: `datetime.strptime(ts,
"%Y-%m-%d %H:%M:%S")` returning `none` on any failure.  `%Y` matches
exactly four digits; the other numeric fields match one or two digits and
are range-checked exactly as the combination of the `strptime` regular
expressions and the `datetime` constructor does. -/
def parseTs (s : String) : Option Int := do
  let (y, ky, l1) := takeDigitsA 4 0 0 s.toList
  guard (ky = 4 ∧ 1 ≤ y)
  let l2 ← expectChar '-' l1
  let (mo, km, l3) := takeDigitsA 2 0 0 l2
  guard (1 ≤ km ∧ 1 ≤ mo ∧ mo ≤ 12)
  let l4 ← expectChar '-' l3
  let (d, kd, l5) := takeDigitsA 2 0 0 l4
  guard (1 ≤ kd ∧ 1 ≤ d ∧ d ≤ daysInMonth y mo)
  let l6 ← expectWs l5
  let (h, kh, l7) := takeDigitsA 2 0 0 l6
  guard (1 ≤ kh ∧ h ≤ 23)
  let l8 ← expectChar ':' l7
  let (mi, kmi, l9) := takeDigitsA 2 0 0 l8
  guard (1 ≤ kmi ∧ mi ≤ 59)
  let l10 ← expectChar ':' l9
  let (sec, ks, l11) := takeDigitsA 2 0 0 l10
  guard (1 ≤ ks ∧ sec ≤ 59)
  guard (l11 = [])
  pure (encodeDT y mo d h mi sec)

example : parseTs "2024-01-01 10:00:00" = some (encodeDT 2024 1 1 10 0 0) := by decide
example : (parseTs "2024-01-01 10:00:05").isSome = true := by decide
example : parseTs "2024-02-30 10:00:00" = none := by decide
example : parseTs "not a time" = none := by decide
example : parseTs "2024-01-01 10:00:00x" = none := by decide
example : parseTs "2024-1-1 9:5:3" = some (encodeDT 2024 1 1 9 5 3) := by decide
example :
    parseTs "2024-01-01 10:00:05" = some ((parseTs "2024-01-01 10:00:00").getD 0 + 5) := by
  decide

/-- The fixed tool enum of `_normalize_annotation_json`. -/
def toolsEnum : List String :=
  ["scissors", "hook", "clipper", "grasper", "bipolar", "irrigator", "none"]

/-- The fixed anatomy enum of `_normalize_annotation_json`. -/
def anatomyEnum : List String :=
  ["gallbladder", "cystic_duct", "cystic_artery", "omentum", "liver",
   "blood_vessel", "abdominal_wall", "peritoneum", "gut", "specimen_bag", "none"]

/-- The fixed 7-value surgical-phase enum. -/
def phaseEnum : List String :=
  ["preparation", "calots_triangle_dissection", "clipping_and_cutting",
   "gallbladder_dissection", "gallbladder_packaging", "cleaning_and_coagulation",
   "gallbladder_extraction"]

/-- Model of the inner `get_any`: first present key wins. -/
def getAnyJ (kvs : List (String × Jv)) : List String → Option Jv
  | [] => none
  | k :: rest =>
    match lookupA kvs k with
    | some v => some v
    | none => getAnyJ kvs rest

/-- Model of the inner `to_list`: `None` becomes `[]`, lists stay, any
other value becomes a singleton. -/
def toListPy : Jv → List Jv
  | .null => []
  | .arr xs => xs
  | v => [v]

/-- The tool synonym table (`synonym_map_tools.get(x, x)`). -/
def synonymMapTools (x : String) : String :=
  if x = "forceps" then "grasper"
  else if x = "grasper" then "grasper"
  else if x = "clip-applier" then "clipper"
  else x

/-- Model of `dict.fromkeys`: de-duplicate keeping first occurrences. -/
def dedupKeepA (seen : List String) : List String → List String
  | [] => []
  | x :: xs => if x ∈ seen then dedupKeepA seen xs else x :: dedupKeepA (x :: seen) xs

/-- De-duplicate a list of strings keeping first occurrences. -/
def dedupKeep (l : List String) : List String := dedupKeepA [] l

/-- Model of Python `sorted` on strings (stable; on a linear order the
result is the unique sorted arrangement). -/
def sortStrings (l : List String) : List String :=
  List.insertionSort (fun a b : String => a ≤ b) l

/-- Model of the phase-normalization block of `_normalize_annotation_json`:
lower-case, underscores for hyphens/spaces, enum check, then the ordered
heuristic keyword rules, with "preparation" as the last resort. -/
def normalizePhase (rawPhase : Jv) : String :=
  let phase := pyReplace (pyReplace (pyLower (pyStrip (pyStr rawPhase))) "-" "_") " " "_"
  if phase ∈ phaseEnum then phase
  else if strHasSub phase "clip" && strHasSub phase "cut" then "clipping_and_cutting"
  else if strHasSub phase "calot" || strHasSub phase "triangle" then "calots_triangle_dissection"
  else if strHasSub phase "pack" then "gallbladder_packaging"
  else if strHasSub phase "dissect" && strHasSub phase "gallbladder" then "gallbladder_dissection"
  else if strHasSub phase "clean" || strHasSub phase "coag" then "cleaning_and_coagulation"
  else if strHasSub phase "extract" then "gallbladder_extraction"
  else "preparation"

/-- The normalized annotation fields returned by the normalizer. -/
structure NormAnn where
  tools : List String
  anatomy : List String
  surgical_phase : String
  description : String
deriving DecidableEq

/-- The description synthesized when the raw one is absent or blank. -/
def synthDesc (toolsList anatomyList : List String) : String :=
  if toolsList ≠ [] ∧ anatomyList ≠ [] ∧ toolsList ≠ ["none"] ∧ anatomyList ≠ ["none"] then
    toolsList.headD "" ++ " interacting with " ++ anatomyList.headD ""
  else "Scene reviewed; limited identifiable details"

/-- The raw `tools` value of `_normalize_annotation_json` (`get_any`
over the accepted key spellings, default `[]`). -/
def rawToolsOf (kvs : List (String × Jv)) : Jv :=
  (getAnyJ kvs ["tools", "Tools", "tool", "Tool", "instruments", "Instruments"]).getD (.arr [])

/-- The raw `anatomy` value (default `[]`). -/
def rawAnatomyOf (kvs : List (String × Jv)) : Jv :=
  (getAnyJ kvs ["anatomy", "Anatomy", "anatomies", "Anatomies", "structures", "Structures"]).getD (.arr [])

/-- The raw phase value (default `"preparation"`). -/
def rawPhaseOf (kvs : List (String × Jv)) : Jv :=
  (getAnyJ kvs ["surgical_phase", "SurgicalPhase", "Surgical_Phase", "Phase", "phase"]).getD (.str "preparation")

/-- The raw description value (default `None`). -/
def rawDescOf (kvs : List (String × Jv)) : Jv :=
  (getAnyJ kvs ["description", "Description", "desc", "Desc"]).getD .null

/-- `tools_list` after the enum filter: listify, stringify, strip, lower,
apply the synonym table, keep only enum members. -/
def toolsFilteredOf (kvs : List (String × Jv)) : List String :=
  (((toListPy (rawToolsOf kvs)).map (fun x => pyLower (pyStrip (pyStr x)))).map
    synonymMapTools).filter (fun x => decide (x ∈ toolsEnum))

/-- `tools_list` after the `["none"]` fallback. -/
def toolsListOf (kvs : List (String × Jv)) : List String :=
  if toolsFilteredOf kvs = [] then ["none"] else toolsFilteredOf kvs

/-- `anatomy_list` after the enum filter: listify, stringify, strip,
lower, underscore spaces, keep only enum members. -/
def anatomyFilteredOf (kvs : List (String × Jv)) : List String :=
  (((toListPy (rawAnatomyOf kvs)).map (fun x => pyLower (pyStrip (pyStr x)))).map
    (fun x => pyReplace x " " "_")).filter (fun x => decide (x ∈ anatomyEnum))

/-- `anatomy_list` after the `["none"]` fallback. -/
def anatomyListOf (kvs : List (String × Jv)) : List String :=
  if anatomyFilteredOf kvs = [] then ["none"] else anatomyFilteredOf kvs

/-- The description chosen before the final `.strip()`: a non-blank raw
string is kept, anything else is synthesized. -/
def descriptionOf (kvs : List (String × Jv)) : String :=
  match rawDescOf kvs with
  | .str s =>
    if pyStrip s = "" then synthDesc (toolsListOf kvs) (anatomyListOf kvs) else s
  | _ => synthDesc (toolsListOf kvs) (anatomyListOf kvs)

/-- Model of `AnnotationAgent._normalize_annotation_json` on a mapping
(the Python function's `data` dict, given as a key/value list). -/
def normalizeAnnJson (kvs : List (String × Jv)) : NormAnn :=
  { tools := sortStrings (dedupKeep (toolsListOf kvs)),
    anatomy := sortStrings (dedupKeep (anatomyListOf kvs)),
    surgical_phase := normalizePhase (rawPhaseOf kvs),
    description := pyStrip (descriptionOf kvs) }

/-- Serialize the normalizer's result back to the mapping it denotes (the
dict literal returned by `_normalize_annotation_json`). -/
def normAnnToObj (n : NormAnn) : List (String × Jv) :=
  [("tools", .arr (n.tools.map .str)),
   ("anatomy", .arr (n.anatomy.map .str)),
   ("surgical_phase", .str n.surgical_phase),
   ("description", .str n.description)]

example :
    normalizeAnnJson [("Tools", .str "Forceps"), ("Phase", .str "Calot Triangle"),
      ("anatomy", .arr [.str "Gall Bladder", .str "liver", .str "xyz"])] =
    { tools := ["grasper"], anatomy := ["liver"],
      surgical_phase := "calots_triangle_dissection",
      description := "grasper interacting with liver" } := by decide

example :
    normalizeAnnJson [] =
    { tools := ["none"], anatomy := ["none"], surgical_phase := "preparation",
      description := "Scene reviewed; limited identifiable details" } := by decide

example :
    (normalizeAnnJson [("tools", .null)]).tools = ["none"] := by decide

example :
    normalizeAnnJson [("tools", .arr [.str "laser", .str " HOOK "]), ("description", .str "  ok  ")] =
    { tools := ["hook"], anatomy := ["none"], surgical_phase := "preparation",
      description := "ok" } := by decide

/-- Is the value a Python dict? (`isinstance(a, dict)`). -/
def isJDict : Jv → Bool
  | .obj _ => true
  | _ => false

/-- Model of the `ts_key` sort key of `_extract_facts`: the parsed
timestamp, with missing, non-string or unparsable timestamps mapped to
`datetime.min` (which encodes to 0). -/
def tsKey (a : Jv) : Int :=
  match jvGet a "timestamp" with
  | some (.str t) => (parseTs t).getD 0
  | _ => 0

/-- Ordering of records by their `ts_key`. -/
def tsLe (a b : Jv) : Prop := tsKey a ≤ tsKey b

instance : DecidableRel tsLe := fun a b => Int.decLe (tsKey a) (tsKey b)

instance : IsTotal Jv tsLe := ⟨fun a b => Int.le_total (tsKey a) (tsKey b)⟩

instance : IsTrans Jv tsLe := ⟨fun _ _ _ h1 h2 => le_trans h1 h2⟩

/-- Model of `sorted([a for a in ann_list if isinstance(a, dict)],
key=ts_key)`.  Insertion sort is stable, like Python `sorted`, so it
computes the same list. -/
def sortAnns (l : List Jv) : List Jv :=
  List.insertionSort tsLe (l.filter isJDict)

/-- One accepted phase transition: the dict `{"phase": ..., "start_time": ...}`. -/
structure Seg where
  phase : String
  start : String
deriving DecidableEq

/-- The loop state of the phase-smoothing block of `_extract_facts`. -/
structure SmoothState where
  runPhase : Option String
  runCount : Nat
  runStart : Option String
  acceptedPhase : Option String
  lastAcceptDt : Option Int
  segs : List Seg
deriving DecidableEq

/-- Initial smoothing state (`run_phase = None`, etc.). -/
def initSmooth : SmoothState := ⟨none, 0, none, none, none, []⟩

/-- The guard at the top of the smoothing loop body: it yields the phase
string, the raw timestamp string and its parsed value exactly when
`isinstance(phase, str)` holds and the timestamp parses (a missing,
falsy or non-string timestamp makes `_parse_ts` return `None`). -/
def annPhaseTs (a : Jv) : Option (String × String × Int) :=
  match jvGet a "surgical_phase", jvGet a "timestamp" with
  | some (.str ph), some (.str ts) => (parseTs ts).map (fun dt => (ph, ts, dt))
  | _, _ => none

/-- The run-tracking update at the top of the smoothing loop body: a
matching phase extends the current run, otherwise a new run starts at
this record's timestamp. -/
def runUpdate (st : SmoothState) (phase ts : String) : SmoothState :=
  if st.runPhase = some phase then
    { st with runCount := st.runCount + 1 }
  else
    { st with runPhase := some phase, runCount := 1, runStart := some ts }

/-- The acceptance gate of the smoothing loop: run-length threshold,
then the dwell threshold against the previously accepted transition
(skipped when no transition has been accepted yet). -/
def acceptUpdate (mc : Nat) (md : Int) (st1 : SmoothState) (phase : String) (tsDt : Int) :
    SmoothState :=
  if st1.acceptedPhase ≠ some phase ∧ mc ≤ st1.runCount then
    let accepted : SmoothState :=
      { st1 with
        segs := st1.segs ++ [{ phase := phase, start := st1.runStart.getD "" }],
        acceptedPhase := some phase,
        lastAcceptDt := some tsDt }
    match st1.lastAcceptDt with
    | none => accepted
    | some dLast => if md ≤ tsDt - dLast then accepted else st1
  else st1

/-- One iteration of the smoothing loop of `_extract_facts` (lines
351-373): the guard, the run tracking, then the acceptance gate. -/
def smoothStep (mc : Nat) (md : Int) (st : SmoothState) (a : Jv) : SmoothState :=
  match annPhaseTs a with
  | none => st
  | some (phase, ts, tsDt) => acceptUpdate mc md (runUpdate st phase ts) phase tsDt

/-- The smoothed segments produced by `_extract_facts` for an annotation
list, with run-length threshold `mc` and dwell threshold `md`. -/
def extractSegs (mc : Nat) (md : Int) (annList : List Jv) : List Seg :=
  ((sortAnns annList).foldl (smoothStep mc md) initSmooth).segs

/-- String-to-string association list lookup (Python dict `.get`). -/
def alLookup : List (String × String) → String → Option String
  | [], _ => none
  | (k, v) :: rest, key => if k = key then some v else alLookup rest key

/-- The derivation of `phases_ordered` and `phase_first_seen_time` from
the smoothed segments (first occurrence only). -/
def phaseFold : List Seg → List String → List (String × String) → (List String × List (String × String))
  | [], po, fs => (po, fs)
  | s :: rest, po, fs =>
    match alLookup fs s.phase with
    | some _ => phaseFold rest po fs
    | none => phaseFold rest (po ++ [s.phase]) (fs ++ [(s.phase, s.start)])

/-- `phases_ordered`. -/
def phasesOrderedOf (segs : List Seg) : List String := (phaseFold segs [] []).1

/-- `phase_first_seen_time`. -/
def phaseFirstSeenOf (segs : List Seg) : List (String × String) := (phaseFold segs [] []).2

/-- A helper to build a minimal annotation record. -/
def mkAnn (ph ts : String) : Jv := .obj [("surgical_phase", .str ph), ("timestamp", .str ts)]

example :
    extractSegs 2 15
      [mkAnn "preparation" "2024-01-01 00:00:00",
       mkAnn "preparation" "2024-01-01 00:00:10",
       mkAnn "preparation" "2024-01-01 00:00:20",
       mkAnn "calots_triangle_dissection" "2024-01-01 00:00:30",
       mkAnn "calots_triangle_dissection" "2024-01-01 00:00:40",
       mkAnn "calots_triangle_dissection" "2024-01-01 00:00:50",
       mkAnn "calots_triangle_dissection" "2024-01-01 00:01:00"] =
    [{ phase := "preparation", start := "2024-01-01 00:00:00" },
     { phase := "calots_triangle_dissection", start := "2024-01-01 00:00:30" }] := by decide

example :
    extractSegs 2 15
      [mkAnn "a" "2024-01-01 00:00:00",
       mkAnn "a" "2024-01-01 00:00:05",
       mkAnn "b" "2024-01-01 00:00:10",
       mkAnn "a" "2024-01-01 00:00:15",
       mkAnn "a" "2024-01-01 00:00:20",
       mkAnn "a" "2024-01-01 00:00:25",
       mkAnn "a" "2024-01-01 00:00:30"] =
    [{ phase := "a", start := "2024-01-01 00:00:00" }] := by decide

example :
    extractSegs 2 15
      [mkAnn "a" "2024-01-01 00:00:00",
       mkAnn "a" "2024-01-01 00:00:00",
       mkAnn "b" "2024-01-01 00:00:00",
       mkAnn "b" "2024-01-01 00:00:00",
       mkAnn "b" "2024-01-01 00:00:20"] =
    [{ phase := "a", start := "2024-01-01 00:00:00" },
     { phase := "b", start := "2024-01-01 00:00:00" }] := by decide

/-- Word character for the regex `\b` boundary (ASCII model: letters,
digits, underscore). -/
def isWordChar (c : Char) : Bool := c.isAlphanum || c = Char.ofNat 95

/-- Consume a literal character sequence (the pattern comes first). -/
def chompLit : List Char → List Char → Option (List Char)
  | [], l => some l
  | _ :: _, [] => none
  | p :: ps, c :: cs => if c = p then chompLit ps cs else none

/-- Is the next position a non-word position (end of input or a non-word
character)?  Used for the `\b` after the keyword. -/
def headNonWord : List Char → Bool
  | [] => true
  | c :: _ => !(isWordChar c)

/-- Consume the keyword alternation `(?:ebl|blood\s*loss)` at the current
position. -/
def chompBloodKeyword (l : List Char) : Option (List Char) :=
  match chompLit "ebl".toList l with
  | some r => some r
  | none =>
    match chompLit "blood".toList l with
    | some r1 => chompLit "loss".toList (r1.dropWhile isPySpace)
    | none => none

/-- Greedy scan of up to `fuel` digit characters, returning the digit
substring and the rest. -/
def takeDigitChars : Nat → List Char → (List Char × List Char)
  | 0, l => ([], l)
  | _ + 1, [] => ([], [])
  | f + 1, c :: rest =>
    if c.isDigit then
      let (ds, r) := takeDigitChars f rest
      (c :: ds, r)
    else ([], c :: rest)

/-- Attempt the blood-loss pattern
`\b(?:ebl|blood\s*loss)\b\s*[:=-]?\s*(\d{1,5})\s*(ml|cc)?` at one
position; `prevW` says whether the preceding character is a word
character (for the leading `\b`).  Returns the two capture groups.  The
local greedy choices of this matcher coincide with the backtracking
semantics of the Python engine at every input (the optional punctuation
class contains no digits and no whitespace, so no backtracking point can
change the outcome). -/
def matchBloodAt (prevW : Bool) (l : List Char) : Option (String × Option String) :=
  if prevW then none
  else
    match chompBloodKeyword l with
    | none => none
    | some r =>
      if headNonWord r then
        let r1 := r.dropWhile isPySpace
        let r2 := match r1 with
          | c :: rest => if c = ':' || c = '=' || c = '-' then rest else r1
          | [] => r1
        let r3 := r2.dropWhile isPySpace
        let (ds, r4) := takeDigitChars 5 r3
        if ds = [] then none
        else
          let r5 := r4.dropWhile isPySpace
          let unit : Option String :=
            if startsWithL r5 "ml".toList then some "ml"
            else if startsWithL r5 "cc".toList then some "cc"
            else none
          some (ds.asString, unit)
      else none

/-- Leftmost search for the blood-loss pattern (`re.search`): try every
position from the left, first success wins. -/
def bloodSearchAux (prevW : Bool) : List Char → Option (String × Option String)
  | [] => matchBloodAt prevW []
  | c :: rest =>
    match matchBloodAt prevW (c :: rest) with
    | some r => some r
    | none => bloodSearchAux (isWordChar c) rest

/-- `re.search` of the blood-loss pattern on a (lower-cased) text. -/
def bloodSearch (l : List Char) : Option (String × Option String) :=
  bloodSearchAux false l

/-- The complication-indicating keywords of `_extract_facts`. -/
def complKeys : List String :=
  ["bleed", "perforat", "converted", "complication", "leak", "injury", "spillage"]

/-- The antibiotic-prophylaxis keyword table. -/
def abxTerms : List String :=
  ["cefazolin", "ancef", "cefoxitin", "ceftriaxone", "metronidazole", "zosyn",
   "piperacillin", "tazobactam", "augmentin", "amoxicillin", "ciprofloxacin",
   "levofloxacin", "ertapenem"]

/-- The DVT-prophylaxis keyword table. -/
def dvtTerms : List String :=
  ["heparin", "enoxaparin", "lovenox", "lmwh", "compression boots", "boots",
   "sequential compression", "scd", "stockings"]

/-- Model of `(n.get("text") or "")` as fed to `.strip()`: a missing or
falsy value yields the empty string; a truthy non-string value makes the
`.strip()` call raise (modelled by `none`). -/
def textOfRaw (n : Jv) : Option String :=
  match jvGet n "text" with
  | none => some ""
  | some v =>
    if jvFalsy v then some ""
    else match v with
      | .str s => some s
      | _ => none

/-- Model of `n.get(k) or ""` where the result is used as a value (not a
method receiver): falsy or missing values collapse to the empty string,
truthy values are kept as they are. -/
def jvGetOrEmpty (n : Jv) (k : String) : Jv :=
  match jvGet n k with
  | none => .str ""
  | some v => if jvFalsy v then .str "" else v

/-- State of the note loop of `_extract_facts` (lines 417-434):
`note_events`, `complications_flags`, `blood_loss_estimate`,
`antibiotic_prophylaxis`, `dvt_prophylaxis`. -/
structure MineSt where
  events : List (Jv × String)
  compl : List String
  blood : Option String
  abx : Option String
  dvt : Option String

/-- Initial note-mining state. -/
def initMine : MineSt := ⟨[], [], none, none, none⟩

/-- One iteration of the note loop: skip blank notes, record a note
event, flag complications, capture the first blood-loss match
(`f"{val} {unit}"`, unit defaulting to "ml"), and the first
antibiotic/DVT keyword hits. -/
def mineStep (st : MineSt) (n : Jv) : Option MineSt :=
  match textOfRaw n with
  | none => none
  | some rawTxt =>
    let ts := jvGetOrEmpty n "timestamp"
    let txt := pyStrip rawTxt
    if txt = "" then some st
    else
      let low := pyLower txt
      let st1 := { st with events := st.events ++ [(ts, "Note: " ++ txt)] }
      let st2 :=
        if complKeys.any (fun k => strHasSub low k) then { st1 with compl := st1.compl ++ [txt] }
        else st1
      let st3 :=
        match bloodSearch low.toList, st2.blood with
        | some (v, u), none => { st2 with blood := some (v ++ " " ++ u.getD "ml") }
        | _, _ => st2
      let st4 :=
        if (abxTerms.any fun t => strHasSub low t) ∧ st3.abx = none then { st3 with abx := some txt }
        else st3
      let st5 :=
        if (dvtTerms.any fun t => strHasSub low t) ∧ st4.dvt = none then { st4 with dvt := some txt }
        else st4
      some st5

/-- The note loop over an already-sorted note list; `none` models an
exception escaping the loop. -/
def mineNotes : List Jv → MineSt → Option MineSt
  | [], st => some st
  | n :: rest, st =>
    match mineStep st n with
    | none => none
    | some st2 => mineNotes rest st2

/-- Model of `sorted([n for n in note_list if isinstance(n, dict)],
key=ts_key)`. -/
def sortNotes (l : List Jv) : List Jv :=
  List.insertionSort tsLe (l.filter isJDict)

example : bloodSearch "ebl: 250 ml".toList = some ("250", some "ml") := by decide
example : bloodSearch "estimated blood loss = 100cc today".toList = some ("100", some "cc") := by decide
example : bloodSearch "blood loss 7 then ebl: 250 ml".toList = some ("7", none) := by decide
example : bloodSearch "aebl: 250 ml".toList = none := by decide
example : bloodSearch "ebl250".toList = none := by decide
example : bloodSearch "no bleeding noted".toList = none := by decide
example : bloodSearch "ebl 1234567 ml".toList = some ("12345", none) := by decide

/-- Python `for x in v` iteration: lists yield elements, strings yield
characters, dicts yield keys; any other truthy value raises (`none`). -/
def pyIter : Jv → Option (List Jv)
  | .arr xs => some xs
  | .str s => some (s.toList.map (fun c => .str (String.singleton c)))
  | .obj kvs => some (kvs.map (fun kv => .str kv.1))
  | _ => none

/-- Iteration of `v or []`: falsy values iterate as empty. -/
def iterValOrEmpty (v : Jv) : Option (List Jv) :=
  if jvFalsy v then some [] else pyIter v

/-- Iteration of `a.get(k, []) or []`. -/
def iterKeyOrEmpty (a : Jv) (k : String) : Option (List Jv) :=
  iterValOrEmpty ((jvGet a k).getD (.arr []))

/-- Add every string item other than "none" to the accumulator
(`if isinstance(t, str) and t != "none": set.add(t)`; the set is taken
at the end by de-duplication and sorting). -/
def aggAdd (acc : List String) (items : List Jv) : List String :=
  items.foldl
    (fun acc t =>
      match t with
      | .str s => if s ≠ "none" then acc ++ [s] else acc
      | _ => acc)
    acc

/-- The tools/anatomy aggregation loop over all (sorted) annotations;
`none` models a `TypeError` from iterating a non-iterable value. -/
def aggToolsAnatomy : List Jv → List String × List String → Option (List String × List String)
  | [], acc => some acc
  | a :: rest, (ts, an) =>
    match iterKeyOrEmpty a "tools", iterKeyOrEmpty a "anatomy" with
    | some ti, some ai => aggToolsAnatomy rest (aggAdd ts ti, aggAdd an ai)
    | _, _ => none

/-- `isinstance(v, (int, float))` with the numeric value (Python `bool`
is a subclass of `int`). -/
def numVal : Option Jv → Option Int
  | some (.int n) => some n
  | some (.bool b) => some (if b then 1 else 0)
  | _ => none

/-- Model of `expr or None` on an optional value: falsy collapses to none. -/
def jvTruthy : Option Jv → Option Jv
  | none => none
  | some x => if jvFalsy x then none else some x

/-- Model of `_parse_ts(v)` applied to an arbitrary stored value: a
non-string makes `strptime` raise, which the function turns into `None`. -/
def parseOpt : Option Jv → Option Int
  | some (.str s) => parseTs s
  | _ => none

/-- Integer-keyed association lookup for `phase_durations.get`. -/
def alGetI : List (String × Int) → String → Option Int
  | [], _ => none
  | (k, v) :: rest, key => if k = key then some v else alGetI rest key

/-- Python dict update: overwrite in place or append a new key. -/
def alSetI : List (String × Int) → String → Int → List (String × Int)
  | [], key, v => [(key, v)]
  | (k, w) :: rest, key, v =>
    if k = key then (k, v) :: rest else (k, w) :: alSetI rest key v

/-- The per-phase duration accumulation over the smoothed segments:
each segment contributes the clamped interval to the next segment's
start (or to the procedure end for the last one); a phase revisited
later accumulates (`phase_durations.get(ph, 0) + ...`). -/
def phaseDurs (endD : Option Int) : List Seg → List (String × Int) → List (String × Int)
  | [], acc => acc
  | s :: rest, acc =>
    let acc2 :=
      match parseTs s.start with
      | none => acc
      | some stD =>
        let nextD :=
          match rest with
          | t :: _ => match parseTs t.start with
            | some d => some d
            | none => endD
          | [] => endD
        match nextD with
        | none => acc
        | some nD => alSetI acc s.phase ((alGetI acc s.phase).getD 0 + max 0 (nD - stD))
    phaseDurs endD rest acc2

/-- Sort key of timeline events (`_parse_ts(e.get("time")) or datetime.min`). -/
def evKey (e : Jv × String) : Int := (parseOpt (some e.1)).getD 0

/-- Ordering of timeline events by their key. -/
def evLe (a b : Jv × String) : Prop := evKey a ≤ evKey b

instance : DecidableRel evLe := fun a b => Int.decLe (evKey a) (evKey b)

instance : IsTotal (Jv × String) evLe := ⟨fun a b => Int.le_total (evKey a) (evKey b)⟩

instance : IsTrans (Jv × String) evLe := ⟨fun _ _ _ h1 h2 => le_trans h1 h2⟩

/-- Stable sort of the merged timeline (`sorted(phase_events + note_events, ...)`). -/
def sortEvents (l : List (Jv × String)) : List (Jv × String) :=
  List.insertionSort evLe l

/-- Python tail slice `l[-k:]` for `k` that may be 0 (in which case the
slice is the whole list). -/
def pyTail (k : Nat) (l : List (Jv × String)) : List (Jv × String) :=
  if k = 0 then l else l.drop (l.length - k)

/-- The synthetic "N events omitted" marker. -/
def buildEllipsis (startT : Option Jv) (omitted : Nat) : Jv × String :=
  (startT.getD (.str "Not specified"), "… " ++ toString omitted ++ " events omitted …")

/-- The timeline cap of `_extract_facts` (lines 438-446): when the cap is
configured (non-zero) and exceeded, keep `min(50, cap // 4)` head
entries, one synthetic marker, and `cap - keep_head` tail entries. -/
def capTimeline (cap : Nat) (startT : Option Jv) (l : List (Jv × String)) : List (Jv × String) :=
  if cap ≠ 0 ∧ cap < l.length then
    let omitted := l.length - cap
    let keepHead := min 50 (cap / 4)
    let keepTail := cap - keepHead
    l.take keepHead ++ [buildEllipsis startT omitted] ++ pyTail keepTail l
  else l

/-- The compact annotation copy kept in the facts for phase details. -/
structure AnnCompact where
  timestamp : Option Jv
  tools : Jv
  anatomy : Jv

/-- The facts dictionary assembled by `_extract_facts`. -/
structure Facts where
  start_time : Option Jv
  end_time : Option Jv
  duration_seconds : Option Int
  phases_ordered : List String
  phase_first_seen_time : List (String × String)
  phase_durations : List (String × Int)
  tools : List String
  anatomy : List String
  timeline : List (Jv × String)
  anns_compact : List AnnCompact
  complications_flags : List String
  blood_loss_estimate : Option String
  antibiotic_prophylaxis : Option String
  dvt_prophylaxis : Option String

/-- The agent configuration relevant to the deterministic pipeline
(defaults, mode flag, smoothing options). -/
structure Cfg where
  procedureType : String
  procedureNature : String
  surgeon : String
  assistant : String
  anaesthetist : String
  llmAssistFindings : Bool
  minConsec : Nat
  minDwell : Int
  timelineMax : Nat
  includeSummary : Bool
  includeDetails : Bool

/-- The built-in default configuration of `PostOpNoteAgent.__init__`. -/
def defaultCfg : Cfg :=
  ⟨"laparoscopic cholecystectomy", "unknown", "Not specified", "Not specified",
   "Not specified", true, 2, 15, 250, true, true⟩

/-- Model of `PostOpNoteAgent._extract_facts` (a pure function of the two
input lists); `none` models an exception escaping to the caller. -/
def extractFacts (cfg : Cfg) (annList noteList : List Jv) : Option Facts :=
  let anns := sortAnns annList
  let notes := sortNotes noteList
  let startT :=
    match anns.head? with
    | some a => jvTruthy (jvGet a "timestamp")
    | none =>
      match notes.head? with
      | some n => jvTruthy (jvGet n "timestamp")
      | none => none
  let endT :=
    match anns.getLast? with
    | some a => jvTruthy (jvGet a "timestamp")
    | none =>
      match notes.getLast? with
      | some n => jvTruthy (jvGet n "timestamp")
      | none => none
  let durElapsed := anns.reverse.findSome? (fun a => numVal (jvGet a "elapsed_time_seconds"))
  let duration :=
    match durElapsed with
    | some d => some d
    | none =>
      match startT, endT with
      | some sv, some ev =>
        match parseOpt (some sv), parseOpt (some ev) with
        | some d0, some d1 => some (max 0 (d1 - d0))
        | _, _ => none
      | _, _ => none
  match aggToolsAnatomy anns ([], []), mineNotes notes initMine with
  | some (ts, an), some mined =>
    let segs := extractSegs cfg.minConsec cfg.minDwell annList
    let pofs := phaseFold segs [] []
    let durs := phaseDurs (parseOpt endT) segs []
    let phaseEvents := segs.map (fun s => ((.str s.start : Jv), "Phase started: " ++ s.phase))
    let timeline := capTimeline cfg.timelineMax startT (sortEvents (phaseEvents ++ mined.events))
    let annsCompact := anns.map (fun a =>
      AnnCompact.mk (jvGet a "timestamp") ((jvGet a "tools").getD (.arr []))
        ((jvGet a "anatomy").getD (.arr [])))
    some
      { start_time := startT, end_time := endT, duration_seconds := duration,
        phases_ordered := pofs.1, phase_first_seen_time := pofs.2, phase_durations := durs,
        tools := sortStrings (dedupKeep ts), anatomy := sortStrings (dedupKeep an),
        timeline := timeline, anns_compact := annsCompact,
        complications_flags := mined.compl, blood_loss_estimate := mined.blood,
        antibiotic_prophylaxis := mined.abx, dvt_prophylaxis := mined.dvt }
  | _, _ => none

/-- Two-digit zero padding (`f"{n:02d}"` for non-negative values). -/
def padTwo (n : Nat) : String := if n < 10 then "0" ++ toString n else toString n

/-- Model of `PostOpNoteAgent._format_duration`. -/
def formatDuration : Option Int → String
  | none => "Not specified"
  | some s =>
    let secs := (max 0 s).toNat
    padTwo (secs / 3600) ++ ":" ++ padTwo (secs % 3600 / 60) ++ ":" ++ padTwo (secs % 60)

/-- Python character slice `s[:n]`. -/
def pyTakeChars (n : Nat) (s : String) : String := (s.toList.take n).asString

/-- Model of `opt or dflt` for an optional string. -/
def pyOrStr (o : Option String) (dflt : String) : String :=
  match o with
  | some s => if s = "" then dflt else s
  | none => dflt

/-- The deterministic findings sentence list of `_build_final_json_from_facts`. -/
def buildFindings (facts : Facts) (durStr : String) : String :=
  let parts : List String :=
    (if facts.phases_ordered ≠ [] then ["Phases observed: " ++ joinComma facts.phases_ordered ++ "."] else [])
    ++ (if facts.tools ≠ [] then ["Tools seen: " ++ joinComma facts.tools ++ "."] else [])
    ++ (if facts.anatomy ≠ [] then ["Anatomy involved: " ++ joinComma facts.anatomy ++ "."] else [])
    ++ (if durStr ≠ "" ∧ durStr ≠ "Not specified" then ["Approximate procedure duration: " ++ durStr ++ "."] else [])
  let parts := if parts = [] then ["Findings: Not specified."] else parts
  String.intercalate " " parts

/-- One entry of the optional per-phase summary block. -/
structure PhaseSummaryItem where
  phase : String
  start_time : String
  duration : String
  duration_seconds : Option Int
deriving DecidableEq

/-- One entry of the optional per-phase detail block. -/
structure PhaseDetailItem where
  phase : String
  tools : List String
  anatomy : List String
deriving DecidableEq

/-- The final post-operative note document. -/
structure PostOpNote where
  date_time : Jv
  procedure_type : String
  procedure_nature : String
  surgeon : String
  assistant : String
  anaesthetist : String
  findings : String
  complications : String
  blood_loss_estimate : String
  dvt_prophylaxis : String
  antibiotic_prophylaxis : String
  postoperative_instructions : String
  timeline : List (Jv × String)
  phase_summary : Option (List PhaseSummaryItem)
  phase_details : Option (List PhaseDetailItem)

/-- The optional per-phase summary block. -/
def buildSummary (facts : Facts) : List PhaseSummaryItem :=
  facts.phases_ordered.map (fun ph =>
    let st := alLookup facts.phase_first_seen_time ph
    let dur := alGetI facts.phase_durations ph
    { phase := ph,
      start_time := pyOrStr st "Not specified",
      duration := formatDuration dur,
      duration_seconds := dur })

/-- Sort key of the reconstructed detail segments. -/
def segKey (s : Seg) : Int := (parseTs s.start).getD 0

/-- Ordering of detail segments by parsed start time. -/
def segLe (a b : Seg) : Prop := segKey a ≤ segKey b

instance : DecidableRel segLe := fun a b => Int.decLe (segKey a) (segKey b)

instance : IsTotal Seg segLe := ⟨fun a b => Int.le_total (segKey a) (segKey b)⟩

instance : IsTrans Seg segLe := ⟨fun _ _ _ h1 h2 => le_trans h1 h2⟩

/-- The segment reconstruction at the start of the phase-detail block
(first-seen start per ordered phase, truthy only, sorted by parsed time). -/
def detailSegs (facts : Facts) : List Seg :=
  List.insertionSort segLe
    (facts.phases_ordered.filterMap (fun ph =>
      match alLookup facts.phase_first_seen_time ph with
      | some st => if st ≠ "" then some ⟨ph, st⟩ else none
      | none => none))

/-- Collect the tools/anatomy seen in annotations whose parsed timestamp
falls in the window `[stD, enD)` (no upper bound when `enD` is `none`). -/
def collectWindow : List AnnCompact → Int → Option Int → List String → List String →
    Option (List String × List String)
  | [], _, _, ts, an => some (ts, an)
  | a :: rest, stD, enD, ts, an =>
    match parseOpt a.timestamp with
    | none => collectWindow rest stD enD ts an
    | some atv =>
      if stD ≤ atv && (match enD with | none => true | some e => decide (atv < e)) then
        match iterValOrEmpty a.tools, iterValOrEmpty a.anatomy with
        | some ti, some ai => collectWindow rest stD enD (aggAdd ts ti) (aggAdd an ai)
        | _, _ => none
      else collectWindow rest stD enD ts an

/-- The phase-detail items, one per reconstructed segment, each with the
tools/anatomy collected in its time window. -/
def buildDetails (annsC : List AnnCompact) (endD : Option Int) : List Seg → Option (List PhaseDetailItem)
  | [] => some []
  | s :: rest =>
    let stD := (parseTs s.start).getD 0
    let enD :=
      match rest with
      | t :: _ => parseTs t.start
      | [] => endD
    match collectWindow annsC stD enD [] [] with
    | none => none
    | some (ts, an) =>
      match buildDetails annsC endD rest with
      | none => none
      | some items =>
        some (⟨s.phase, sortStrings (dedupKeep ts), sortStrings (dedupKeep an)⟩ :: items)

/-- Model of `PostOpNoteAgent._build_final_json_from_facts`; `none`
models an exception escaping to the caller (only possible inside the
phase-detail iteration). -/
def buildFinalJson (cfg : Cfg) (facts : Facts) : Option PostOpNote :=
  let durStr := formatDuration facts.duration_seconds
  let findings := buildFindings facts durStr
  let complications :=
    if facts.complications_flags ≠ [] then
      pyTakeChars 500 (String.intercalate "; " facts.complications_flags)
    else "None recorded"
  let base : PostOpNote :=
    { date_time := (jvTruthy facts.start_time).getD (.str "Not specified"),
      procedure_type := cfg.procedureType,
      procedure_nature := cfg.procedureNature,
      surgeon := cfg.surgeon, assistant := cfg.assistant, anaesthetist := cfg.anaesthetist,
      findings := findings,
      complications := complications,
      blood_loss_estimate := pyOrStr facts.blood_loss_estimate "Not specified",
      dvt_prophylaxis := pyOrStr facts.dvt_prophylaxis "Not specified",
      antibiotic_prophylaxis := pyOrStr facts.antibiotic_prophylaxis "Not specified",
      postoperative_instructions := "Not specified",
      timeline := facts.timeline.map (fun e =>
        ((if jvFalsy e.1 then .str "Not specified" else e.1 : Jv), pyTakeChars 500 e.2)),
      phase_summary := none, phase_details := none }
  let base := if cfg.includeSummary then { base with phase_summary := some (buildSummary facts) } else base
  if cfg.includeDetails then
    match buildDetails facts.anns_compact (parseOpt facts.end_time) (detailSegs facts) with
    | none => none
    | some d => some { base with phase_details := some d }
  else some base

/-- The grammar-compliant default structure returned by
`generate_post_op_note` when both inputs are empty (lines 94-110). -/
def defaultSkeleton (cfg : Cfg) : PostOpNote :=
  { date_time := .str "Not specified",
    procedure_type := cfg.procedureType,
    procedure_nature := cfg.procedureNature,
    surgeon := cfg.surgeon, assistant := cfg.assistant, anaesthetist := cfg.anaesthetist,
    findings := "No findings recorded",
    complications := "None recorded",
    blood_loss_estimate := "Not specified",
    dvt_prophylaxis := "Not specified",
    antibiotic_prophylaxis := "Not specified",
    postoperative_instructions := "Not specified",
    timeline := [],
    phase_summary := none, phase_details := none }

/-- The per-item validity test of `_load_json_array` for notetaker files:
`isinstance(item, dict) and item.get("text", "").strip() and
item.get("text", "").lower().strip() not in ["", "take a note"]`;
`none` models the exception raised by `.strip()` on a non-string. -/
def validNoteCheck (item : Jv) : Option Bool :=
  if !(isJDict item) then some false
  else
    match jvGet item "text" with
    | none => some false
    | some v =>
      match v with
      | .str s =>
        if pyStrip s = "" then some false
        else some (!(pyStrip (pyLower s) = "" || pyStrip (pyLower s) = "take a note"))
      | _ => none

/-- `any(...)` over the items, short-circuiting on the first `True`. -/
def hasValidNote : List Jv → Option Bool
  | [] => some false
  | item :: rest =>
    match validNoteCheck item with
    | none => none
    | some true => some true
    | some false => hasValidNote rest

/-- Model of `_load_json_array` for the annotation file.  The file state
is `none` when the file is missing, `some none` when its contents are not
valid JSON, and `some (some v)` when they parse to `v`. -/
def loadJsonArrayAnn : Option (Option Jv) → List Jv
  | none => []
  | some none => []
  | some (some v) =>
    match v with
    | .arr l => if l.isEmpty then [] else l
    | _ => []

/-- Model of `_load_json_array` for the notetaker file: additionally
requires at least one valid (non-placeholder) note, and maps any
exception during that check to the empty list. -/
def loadJsonArrayNotes : Option (Option Jv) → List Jv
  | none => []
  | some none => []
  | some (some v) =>
    match v with
    | .arr l =>
      if l.isEmpty then []
      else
        match hasValidNote l with
        | some true => l
        | _ => []
    | _ => []

/-- The findings-refinement step as applied by `generate_post_op_note`
(lines 116-122 with `_refine_findings_with_llm`): the LLM call either
raises (`Except.error`) or returns an optional message content; the
returned content is stripped (`(content or "").strip()`), and replaces
the findings only when non-empty; any error keeps the note unchanged. -/
def applyRefine (p : PostOpNote) (r : Except Unit (Option String)) : PostOpNote :=
  match r with
  | .error _ => p
  | .ok content =>
    let refined := pyStrip (content.getD "")
    if refined ≠ "" then { p with findings := refined } else p

/-- Model of `generate_post_op_note` (lines 68-127, persistence elided):
load both arrays, short-circuit to the default skeleton when both are
empty, else extract facts, build the note, and optionally apply the LLM
findings polish.  `none` models a `None` return (an exception caught by
the outer handler). -/
def generatePostOpNote (cfg : Cfg) (annFile noteFile : Option (Option Jv))
    (oracle : Except Unit (Option String)) : Option PostOpNote :=
  let annList := loadJsonArrayAnn annFile
  let noteList := loadJsonArrayNotes noteFile
  if annList.isEmpty ∧ noteList.isEmpty then some (defaultSkeleton cfg)
  else
    match extractFacts cfg annList noteList with
    | none => none
    | some facts =>
      match buildFinalJson cfg facts with
      | none => none
      | some fj => some (if cfg.llmAssistFindings then applyRefine fj oracle else fj)

example :
    generatePostOpNote defaultCfg none none (.ok (some "anything")) =
      some (defaultSkeleton defaultCfg) := rfl

example :
    generatePostOpNote defaultCfg (some none)
      (some (some (.arr [.obj [("text", .str " Take a NOTE ")]]))) (.error ()) =
      some (defaultSkeleton defaultCfg) := rfl

example :
    (generatePostOpNote defaultCfg
        (some (some (.arr [mkAnn "preparation" "2024-01-01 00:00:00",
                           mkAnn "preparation" "2024-01-01 00:00:10",
                           mkAnn "calots_triangle_dissection" "2024-01-01 00:00:30",
                           mkAnn "calots_triangle_dissection" "2024-01-01 00:00:40"])))
        none (.error ())).map PostOpNote.findings =
      some ("Phases observed: preparation, calots_triangle_dissection. " ++
            "Approximate procedure duration: 00:00:40.") := by decide

/-- Model of `Agent.append_json_to_file` (base_agent.py lines 465-482),
expressed on the parsed content of the target file: `none` is a missing
file, `some none` a file whose contents fail to parse as JSON, and
`some (some v)` a file parsing to `v`.  The result is the parsed content
written back. -/
def appendJsonToFile (prior : Option (Option Jv)) (obj : Jv) : Jv :=
  match prior with
  | none => .arr [obj]
  | some parsed =>
    let data := match parsed with
      | none => Jv.arr []
      | some d => d
    let xs := match data with
      | .arr l => l
      | _ => []
    .arr (xs ++ [obj])

/-- C10: for every prior file state — absent, unparsable, or parsing to a
non-list — `append_json_to_file` leaves the file holding a JSON array
whose last element is the appended object, and when the prior content is
a valid JSON array all prior elements are preserved in order before it. -/
theorem append_json_robust (prior : Option (Option Jv)) (obj : Jv) :
    (∃ xs, appendJsonToFile prior obj = .arr xs ∧ xs.getLast? = some obj) ∧
    (∀ l, prior = some (some (.arr l)) → appendJsonToFile prior obj = .arr (l ++ [obj])) := by
  constructor
  · match prior with
    | none => exact ⟨[obj], rfl, rfl⟩
    | some none => exact ⟨[obj], rfl, rfl⟩
    | some (some (.arr l)) => exact ⟨l ++ [obj], rfl, by simp⟩
    | some (some .null) => exact ⟨[obj], rfl, rfl⟩
    | some (some (.bool b)) => exact ⟨[obj], rfl, rfl⟩
    | some (some (.int n)) => exact ⟨[obj], rfl, rfl⟩
    | some (some (.str s)) => exact ⟨[obj], rfl, rfl⟩
    | some (some (.obj kvs)) => exact ⟨[obj], rfl, rfl⟩
  · rintro l rfl
    rfl

/-- Witness for C10 at a concrete prior array. -/
theorem append_json_robust_witness :
    appendJsonToFile (some (some (.arr [.int 1]))) (.int 2) = .arr [.int 1, .int 2] :=
  (append_json_robust (some (some (.arr [.int 1]))) (.int 2)).2 [.int 1] rfl

/-- C9: if the findings-refinement step raises or returns a blank result
the findings stay exactly the deterministic baseline, and no field other
than `findings` is ever altered by the refinement step. -/
theorem llm_polish_never_downgrades (p : PostOpNote) :
    (∀ e, applyRefine p (.error e) = p) ∧
    (∀ c, pyStrip (c.getD "") = "" → applyRefine p (.ok c) = p) ∧
    (∀ r, (applyRefine p r).date_time = p.date_time ∧
      (applyRefine p r).procedure_type = p.procedure_type ∧
      (applyRefine p r).procedure_nature = p.procedure_nature ∧
      (applyRefine p r).surgeon = p.surgeon ∧
      (applyRefine p r).assistant = p.assistant ∧
      (applyRefine p r).anaesthetist = p.anaesthetist ∧
      (applyRefine p r).complications = p.complications ∧
      (applyRefine p r).blood_loss_estimate = p.blood_loss_estimate ∧
      (applyRefine p r).dvt_prophylaxis = p.dvt_prophylaxis ∧
      (applyRefine p r).antibiotic_prophylaxis = p.antibiotic_prophylaxis ∧
      (applyRefine p r).postoperative_instructions = p.postoperative_instructions ∧
      (applyRefine p r).timeline = p.timeline ∧
      (applyRefine p r).phase_summary = p.phase_summary ∧
      (applyRefine p r).phase_details = p.phase_details) := by
  refine ⟨fun e => rfl, fun c h => ?_, fun r => ?_⟩
  · simp [applyRefine, h]
  · cases r with
    | error e => simp [applyRefine]
    | ok c =>
      simp only [applyRefine]
      split <;> simp

/-- Witness for C9: a blank LLM reply leaves a concrete note unchanged. -/
theorem llm_polish_never_downgrades_witness :
    applyRefine (defaultSkeleton defaultCfg) (.ok (some "   ")) = defaultSkeleton defaultCfg :=
  (llm_polish_never_downgrades (defaultSkeleton defaultCfg)).2.1 (some "   ") (by decide)

/-- C8: when both loaded inputs are empty, `generate_post_op_note`
returns the exact default skeleton, for every possible LLM oracle (so no
LLM step and no extraction influences the result). -/
theorem empty_inputs_short_circuit (cfg : Cfg) (annFile noteFile : Option (Option Jv))
    (ha : loadJsonArrayAnn annFile = []) (hn : loadJsonArrayNotes noteFile = []) :
    (∀ oracle, generatePostOpNote cfg annFile noteFile oracle = some (defaultSkeleton cfg)) ∧
    (defaultSkeleton cfg).findings = "No findings recorded" ∧
    (defaultSkeleton cfg).complications = "None recorded" ∧
    (defaultSkeleton cfg).timeline = [] ∧
    (defaultSkeleton cfg).date_time = .str "Not specified" ∧
    (defaultSkeleton cfg).blood_loss_estimate = "Not specified" ∧
    (defaultSkeleton cfg).dvt_prophylaxis = "Not specified" ∧
    (defaultSkeleton cfg).antibiotic_prophylaxis = "Not specified" ∧
    (defaultSkeleton cfg).postoperative_instructions = "Not specified" := by
  refine ⟨fun oracle => ?_, rfl, rfl, rfl, rfl, rfl, rfl, rfl, rfl⟩
  simp [generatePostOpNote, ha, hn]

/-- Witness for C8: an unparsable annotation file and a placeholder-only
notetaker file produce the skeleton. -/
theorem empty_inputs_short_circuit_witness :
    loadJsonArrayAnn (some none) = [] ∧
    loadJsonArrayNotes (some (some (.arr [.obj [("text", .str " Take a NOTE ")]]))) = [] ∧
    generatePostOpNote defaultCfg (some none)
      (some (some (.arr [.obj [("text", .str " Take a NOTE ")]]))) (.ok (some "x")) =
      some (defaultSkeleton defaultCfg) :=
  ⟨rfl, rfl,
    (empty_inputs_short_circuit defaultCfg (some none)
      (some (some (.arr [.obj [("text", .str " Take a NOTE ")]]))) rfl rfl).1 (.ok (some "x"))⟩

/-- C3 (amended): whenever the merged timeline exceeds the cap of 250,
the capped timeline is exactly the earliest 50 events, one synthetic
omitted marker, and the latest 200 events — 251 entries in total. -/
theorem timeline_cap_shape (startT : Option Jv) (l : List (Jv × String)) (h : 250 < l.length) :
    capTimeline 250 startT l =
      l.take 50 ++ [buildEllipsis startT (l.length - 250)] ++ l.drop (l.length - 200) ∧
    (capTimeline 250 startT l).length = 251 := by
  have hc : ((250 : Nat) ≠ 0 ∧ 250 < l.length) := ⟨by norm_num, h⟩
  have he : capTimeline 250 startT l =
      l.take 50 ++ [buildEllipsis startT (l.length - 250)] ++ l.drop (l.length - 200) := by
    simp only [capTimeline, if_pos hc, pyTail]
    norm_num
  refine ⟨he, ?_⟩
  rw [he]
  simp only [List.length_append, List.length_take, List.length_cons, List.length_nil,
    List.length_drop]
  omega

/-- Witness for C3 (amended) at a concrete 251-event timeline. -/
theorem timeline_cap_shape_witness :
    250 < ((List.range 251).map (fun i => (Jv.str (toString i), "e"))).length ∧
    (capTimeline 250 none ((List.range 251).map (fun i => (Jv.str (toString i), "e")))).length
      = 251 :=
  ⟨by simp, (timeline_cap_shape none ((List.range 251).map (fun i => (Jv.str (toString i), "e")))
    (by simp)).2⟩

/-- C3 (counterexample): for 1000 merged events and a cap of 250 the
capped timeline has 251 entries, not 250 — and its head slice holds 50
original events, not about 62. -/
theorem timeline_cap_not_250 :
    ((capTimeline 250 none ((List.range 1000).map (fun i => (Jv.str (toString i), "event")))).length
        = 251) ∧
    ¬ ((capTimeline 250 none
        ((List.range 1000).map (fun i => (Jv.str (toString i), "event")))).length = 250) := by
  have gen : ∀ (l : List (Jv × String)), l.length = 1000 →
      (capTimeline 250 none l).length = 251 := by
    intro l hlen
    have hc : ((250 : Nat) ≠ 0 ∧ 250 < l.length) := ⟨by norm_num, by omega⟩
    have he : capTimeline 250 none l =
        l.take 50 ++ [buildEllipsis none (l.length - 250)] ++ l.drop (l.length - 200) := by
      simp only [capTimeline, if_pos hc, pyTail]
      norm_num
    rw [he]
    simp only [List.length_append, List.length_take, List.length_cons, List.length_nil,
      List.length_drop]
    omega
  have h1 := gen ((List.range 1000).map (fun i => (Jv.str (toString i), "event"))) (by simp)
  refine ⟨h1, ?_⟩
  rw [h1]
  norm_num

/-- Membership in the de-duplication with a seen accumulator. -/
theorem mem_dedupKeepA {x : String} :
    ∀ (seen l : List String), x ∈ dedupKeepA seen l ↔ (x ∈ l ∧ x ∉ seen) := by
  intro seen l
  induction l generalizing seen with
  | nil => simp [dedupKeepA]
  | cons y ys ih =>
    simp only [dedupKeepA]
    split
    case isTrue h =>
      rw [ih seen]
      constructor
      · rintro ⟨hx, hs⟩
        exact ⟨List.mem_cons_of_mem _ hx, hs⟩
      · rintro ⟨hx, hs⟩
        rcases List.mem_cons.mp hx with rfl | hx2
        · exact absurd h hs
        · exact ⟨hx2, hs⟩
    case isFalse h =>
      simp only [List.mem_cons]
      rw [ih (y :: seen)]
      simp only [List.mem_cons]
      constructor
      · rintro (rfl | ⟨hx, hs⟩)
        · exact ⟨Or.inl rfl, h⟩
        · exact ⟨Or.inr hx, fun hc => hs (Or.inr hc)⟩
      · rintro ⟨rfl | hx, hs⟩
        · exact Or.inl rfl
        · by_cases hxy : x = y
          · exact Or.inl hxy
          · exact Or.inr ⟨hx, fun hc => (hc.elim hxy hs : False)⟩

/-- `dedupKeep` preserves membership. -/
theorem mem_dedupKeep {x : String} {l : List String} : x ∈ dedupKeep l ↔ x ∈ l := by
  rw [dedupKeep, mem_dedupKeepA]
  simp

/-- The de-duplicated list has no duplicates. -/
theorem dedupKeepA_nodup : ∀ (seen l : List String), (dedupKeepA seen l).Nodup := by
  intro seen l
  induction l generalizing seen with
  | nil => simp [dedupKeepA]
  | cons y ys ih =>
    simp only [dedupKeepA]
    split
    · exact ih seen
    · rw [List.nodup_cons]
      refine ⟨fun hmem => ?_, ih (y :: seen)⟩
      exact ((mem_dedupKeepA (y :: seen) ys).mp hmem).2 (List.mem_cons_self y seen)

/-- `dedupKeep` yields a duplicate-free list. -/
theorem dedupKeep_nodup (l : List String) : (dedupKeep l).Nodup := dedupKeepA_nodup [] l

/-- `dedupKeep` of a non-empty list is non-empty. -/
theorem dedupKeep_ne_nil {l : List String} (h : l ≠ []) : dedupKeep l ≠ [] := by
  cases l with
  | nil => exact absurd rfl h
  | cons x xs =>
    intro hc
    have hx : x ∈ dedupKeep (x :: xs) := mem_dedupKeep.mpr (List.mem_cons_self _ _)
    rw [hc] at hx
    exact List.not_mem_nil x hx

/-- The string sort is a permutation of its input. -/
theorem sortStrings_perm (l : List String) : List.Perm (sortStrings l) l :=
  List.perm_insertionSort _ l

/-- The string sort preserves membership. -/
theorem mem_sortStrings {x : String} {l : List String} : x ∈ sortStrings l ↔ x ∈ l :=
  (sortStrings_perm l).mem_iff

/-- The string sort of a non-empty list is non-empty. -/
theorem sortStrings_ne_nil {l : List String} (h : l ≠ []) : sortStrings l ≠ [] := by
  intro hc
  have hp : List.Perm l ([] : List String) := by
    have := (sortStrings_perm l).symm
    rw [hc] at this
    exact this
  exact h hp.eq_nil

/-- The normalized phase always lands in the 7-value enum. -/
theorem normalizePhase_mem (rawPhase : Jv) : normalizePhase rawPhase ∈ phaseEnum := by
  simp only [normalizePhase]
  split
  · assumption
  split
  · decide
  split
  · decide
  split
  · decide
  split
  · decide
  split
  · decide
  split
  · decide
  · decide

/-- A list whose strip is empty consists of whitespace only; hence a
non-whitespace member keeps the strip non-empty. -/
theorem stripChars_ne_nil_of_mem {c : Char} {l : List Char} (hc : c ∈ l)
    (hw : isPySpace c = false) : stripChars l ≠ [] := by
  intro hnil
  have hsplit := List.takeWhile_append_dropWhile (p := isPySpace) (l := l)
  have hcdrop : c ∈ l.dropWhile isPySpace := by
    rcases List.mem_append.mp (by rw [hsplit]; exact hc) with h1 | h2
    · have := List.mem_takeWhile_imp h1
      rw [hw] at this
      exact absurd this (by simp)
    · exact h2
  have h2 : (l.dropWhile isPySpace).reverse.dropWhile isPySpace = [] := by
    have : ((l.dropWhile isPySpace).reverse.dropWhile isPySpace).reverse = [] := hnil
    simpa using this
  have hall := List.dropWhile_eq_nil_iff.mp h2
  have : isPySpace c = true := hall c (by simp [hcdrop])
  rw [hw] at this
  exact absurd this (by simp)

/-- `pyStrip` keeps a string containing a non-whitespace character
non-empty. -/
theorem pyStrip_ne_empty_of_char {c : Char} {s : String} (hc : c ∈ s.toList)
    (hw : isPySpace c = false) : pyStrip s ≠ "" := by
  intro hs
  apply stripChars_ne_nil_of_mem hc hw
  have : (stripChars s.toList).asString.data = ("" : String).data := by rw [pyStrip] at hs; rw [hs]
  simpa [List.asString] using this

/-- Everything surviving an enum filter is in the enum. -/
theorem filter_mem_enum {l enum : List String} :
    ∀ x ∈ l.filter (fun x => decide (x ∈ enum)), x ∈ enum := by
  intro x hx
  exact of_decide_eq_true (List.mem_filter.mp hx).2

/-- The sorted, de-duplicated, fallback-completed enum list is non-empty
and drawn from the enum. -/
theorem enumListOk (l2 enum : List String) (hnone : "none" ∈ enum)
    (hl2 : ∀ x ∈ l2, x ∈ enum) :
    sortStrings (dedupKeep (if l2 = [] then ["none"] else l2)) ≠ [] ∧
    ∀ x ∈ sortStrings (dedupKeep (if l2 = [] then ["none"] else l2)), x ∈ enum := by
  constructor
  · apply sortStrings_ne_nil
    apply dedupKeep_ne_nil
    split
    · simp
    · assumption
  · intro x hx
    have hx2 := mem_dedupKeep.mp (mem_sortStrings.mp hx)
    revert hx2
    split
    · intro h
      have : x = "none" := by simpa using h
      rw [this]
      exact hnone
    · intro h
      exact hl2 x h

/-- The synthesized description never strips to the empty string. -/
theorem pyStrip_synth_ne (tl al : List String) : pyStrip (synthDesc tl al) ≠ "" := by
  unfold synthDesc
  split
  · apply pyStrip_ne_empty_of_char (c := 'i')
    · show 'i' ∈ (_ ++ " interacting with " ++ _ : String).data
      rw [String.data_append, String.data_append]
      refine List.mem_append.mpr (Or.inl (List.mem_append.mpr (Or.inr ?_)))
      decide
    · decide
  · decide

/-- The final description is never the empty string. -/
theorem pyStrip_descriptionOf_ne (kvs : List (String × Jv)) :
    pyStrip (descriptionOf kvs) ≠ "" := by
  cases h : rawDescOf kvs with
  | str s =>
    simp only [descriptionOf, h]
    split
    · exact pyStrip_synth_ne _ _
    · assumption
  | null => simp only [descriptionOf, h]; exact pyStrip_synth_ne _ _
  | bool b => simp only [descriptionOf, h]; exact pyStrip_synth_ne _ _
  | int n => simp only [descriptionOf, h]; exact pyStrip_synth_ne _ _
  | arr xs => simp only [descriptionOf, h]; exact pyStrip_synth_ne _ _
  | obj kvs2 => simp only [descriptionOf, h]; exact pyStrip_synth_ne _ _

/-- C4: for every input mapping the normalizer returns (it is a total
function) a record whose tools and anatomy are non-empty lists drawn
from the fixed enums, whose phase is one of the 7 canonical values, and
whose description is a non-empty string. -/
theorem normalizer_total_conformant (kvs : List (String × Jv)) :
    (normalizeAnnJson kvs).tools ≠ [] ∧
    (∀ t ∈ (normalizeAnnJson kvs).tools, t ∈ toolsEnum) ∧
    (normalizeAnnJson kvs).anatomy ≠ [] ∧
    (∀ t ∈ (normalizeAnnJson kvs).anatomy, t ∈ anatomyEnum) ∧
    (normalizeAnnJson kvs).surgical_phase ∈ phaseEnum ∧
    (normalizeAnnJson kvs).description ≠ "" := by
  have htools := enumListOk (toolsFilteredOf kvs) toolsEnum (by decide)
    (filter_mem_enum (l := ((toListPy (rawToolsOf kvs)).map
      (fun x => pyLower (pyStrip (pyStr x)))).map synonymMapTools))
  have hanat := enumListOk (anatomyFilteredOf kvs) anatomyEnum (by decide)
    (filter_mem_enum (l := ((toListPy (rawAnatomyOf kvs)).map
      (fun x => pyLower (pyStrip (pyStr x)))).map (fun x => pyReplace x " " "_")))
  exact ⟨htools.1, htools.2, hanat.1, hanat.2, normalizePhase_mem _,
    pyStrip_descriptionOf_ne kvs⟩

/-- A list headed by a non-matching element is unchanged by `dropWhile`. -/
theorem dropWhile_cons_eq_self {p : Char → Bool} {c : Char} {cs : List Char}
    (h : p c = false) : (c :: cs).dropWhile p = c :: cs := by
  simp [List.dropWhile_cons, h]

/-- The head of a `dropWhile` result does not satisfy the predicate. -/
theorem dropWhile_head_false {p : Char → Bool} {l : List Char} {c : Char} {cs : List Char}
    (h : l.dropWhile p = c :: cs) : p c = false := by
  induction l with
  | nil => simp at h
  | cons y ys ih =>
    rw [List.dropWhile_cons] at h
    by_cases hy : p y
    · rw [if_pos hy] at h
      exact ih h
    · rw [if_neg hy] at h
      cases h
      simpa using hy

/-- Stripping is idempotent on character lists. -/
theorem stripChars_idem (l : List Char) : stripChars (stripChars l) = stripChars l := by
  have hrw : ∀ m : List Char, stripChars m = List.rdropWhile isPySpace (m.dropWhile isPySpace) :=
    fun m => rfl
  rw [hrw l, hrw]
  have h2 : (List.rdropWhile isPySpace (l.dropWhile isPySpace)).dropWhile isPySpace
      = List.rdropWhile isPySpace (l.dropWhile isPySpace) := by
    cases hA : List.rdropWhile isPySpace (l.dropWhile isPySpace) with
    | nil => rfl
    | cons c cs =>
      obtain ⟨t, ht⟩ := List.rdropWhile_prefix (p := isPySpace) (l := l.dropWhile isPySpace)
      rw [hA] at ht
      have hc : isPySpace c = false := dropWhile_head_false (l := l) ht.symm
      exact dropWhile_cons_eq_self hc
  rw [h2, List.rdropWhile_idempotent]

/-- `pyStrip` is idempotent. -/
theorem pyStrip_idem (s : String) : pyStrip (pyStrip s) = pyStrip s := by
  unfold pyStrip
  rw [List.toList_asString, stripChars_idem]

/-- De-duplication leaves a duplicate-free list unchanged. -/
theorem dedupKeepA_eq_self :
    ∀ (seen l : List String), l.Nodup → (∀ x ∈ l, x ∉ seen) → dedupKeepA seen l = l := by
  intro seen l
  induction l generalizing seen with
  | nil => intro _ _; rfl
  | cons y ys ih =>
    intro hnd hdisj
    simp only [dedupKeepA]
    rw [if_neg (hdisj y (List.mem_cons_self _ _))]
    congr 1
    apply ih
    · exact (List.nodup_cons.mp hnd).2
    · intro x hx hmem
      rcases List.mem_cons.mp hmem with rfl | hseen
      · exact (List.nodup_cons.mp hnd).1 hx
      · exact hdisj x (List.mem_cons_of_mem _ hx) hseen

/-- `dedupKeep` leaves a duplicate-free list unchanged. -/
theorem dedupKeep_eq_self {l : List String} (h : l.Nodup) : dedupKeep l = l :=
  dedupKeepA_eq_self [] l h (by simp)

/-- The string sort yields a sorted list. -/
theorem sortStrings_sorted (l : List String) : List.Sorted (· ≤ ·) (sortStrings l) :=
  List.sorted_insertionSort _ l

/-- The string sort leaves sorted lists unchanged. -/
theorem sortStrings_eq_self {l : List String} (h : List.Sorted (· ≤ ·) l) :
    sortStrings l = l :=
  List.Sorted.insertionSort_eq h

/-- The string sort preserves freedom from duplicates. -/
theorem sortStrings_nodup {l : List String} (h : l.Nodup) : (sortStrings l).Nodup :=
  (sortStrings_perm l).nodup_iff.mpr h

/-- Tool enum members are fixed by the strip/lower/synonym pipeline. -/
theorem tools_enum_fixed : ∀ x ∈ toolsEnum, synonymMapTools (pyLower (pyStrip x)) = x := by
  decide

/-- Anatomy enum members are fixed by the strip/lower/underscore pipeline. -/
theorem anatomy_enum_fixed : ∀ x ∈ anatomyEnum, pyReplace (pyLower (pyStrip x)) " " "_" = x := by
  decide

/-- Canonical phases are fixed points of the phase normalization. -/
theorem phase_enum_fixed : ∀ x ∈ phaseEnum, normalizePhase (.str x) = x := by decide

/-- A round trip through stringification, strip/lower and a final map is
the identity on a list whose members the final map fixes. -/
theorem normStr_maps_fixed {l : List String} {g : String → String}
    (hg : ∀ x ∈ l, g (pyLower (pyStrip x)) = x) :
    ((l.map Jv.str).map (fun x => pyLower (pyStrip (pyStr x)))).map g = l := by
  induction l with
  | nil => rfl
  | cons y ys ih =>
    simp only [List.map_cons, List.cons.injEq]
    exact ⟨hg y (List.mem_cons_self _ _), ih (fun x hx => hg x (List.mem_cons_of_mem _ hx))⟩

/-- An enum filter leaves a list of enum members unchanged. -/
theorem filter_eq_self_of_mem {l enum : List String} (h : ∀ x ∈ l, x ∈ enum) :
    l.filter (fun x => decide (x ∈ enum)) = l :=
  List.filter_eq_self.mpr (fun a ha => decide_eq_true (h a ha))

/-- The raw tools value of a serialized normalized record. -/
theorem rawToolsOf_toObj (n : NormAnn) : rawToolsOf (normAnnToObj n) = .arr (n.tools.map .str) := by
  simp [rawToolsOf, normAnnToObj, getAnyJ, lookupA]

/-- The raw anatomy value of a serialized normalized record. -/
theorem rawAnatomyOf_toObj (n : NormAnn) :
    rawAnatomyOf (normAnnToObj n) = .arr (n.anatomy.map .str) := by
  simp [rawAnatomyOf, normAnnToObj, getAnyJ, lookupA]

/-- The raw phase value of a serialized normalized record. -/
theorem rawPhaseOf_toObj (n : NormAnn) : rawPhaseOf (normAnnToObj n) = .str n.surgical_phase := by
  simp [rawPhaseOf, normAnnToObj, getAnyJ, lookupA]

/-- The raw description value of a serialized normalized record. -/
theorem rawDescOf_toObj (n : NormAnn) : rawDescOf (normAnnToObj n) = .str n.description := by
  simp [rawDescOf, normAnnToObj, getAnyJ, lookupA]

/-- Normalizing a serialized schema-conformant record returns it
unchanged. -/
theorem second_pass_fixed (n : NormAnn)
    (htm : ∀ x ∈ n.tools, x ∈ toolsEnum)
    (hts : List.Sorted (· ≤ ·) n.tools)
    (htn : n.tools.Nodup)
    (hte : n.tools ≠ [])
    (ham : ∀ x ∈ n.anatomy, x ∈ anatomyEnum)
    (has : List.Sorted (· ≤ ·) n.anatomy)
    (han : n.anatomy.Nodup)
    (hae : n.anatomy ≠ [])
    (hp : n.surgical_phase ∈ phaseEnum)
    (hds : pyStrip n.description = n.description)
    (hde : n.description ≠ "") :
    normalizeAnnJson (normAnnToObj n) = n := by
  have htf : toolsFilteredOf (normAnnToObj n) = n.tools := by
    rw [toolsFilteredOf, rawToolsOf_toObj]
    show (((n.tools.map Jv.str).map (fun x => pyLower (pyStrip (pyStr x)))).map
      synonymMapTools).filter (fun x => decide (x ∈ toolsEnum)) = n.tools
    rw [normStr_maps_fixed (fun x hx => tools_enum_fixed x (htm x hx))]
    exact filter_eq_self_of_mem htm
  have haf : anatomyFilteredOf (normAnnToObj n) = n.anatomy := by
    rw [anatomyFilteredOf, rawAnatomyOf_toObj]
    show (((n.anatomy.map Jv.str).map (fun x => pyLower (pyStrip (pyStr x)))).map
      (fun x => pyReplace x " " "_")).filter (fun x => decide (x ∈ anatomyEnum)) = n.anatomy
    rw [normStr_maps_fixed (fun x hx => anatomy_enum_fixed x (ham x hx))]
    exact filter_eq_self_of_mem ham
  have htl : toolsListOf (normAnnToObj n) = n.tools := by
    rw [toolsListOf, htf, if_neg hte]
  have hal : anatomyListOf (normAnnToObj n) = n.anatomy := by
    rw [anatomyListOf, haf, if_neg hae]
  have h1 : sortStrings (dedupKeep (toolsListOf (normAnnToObj n))) = n.tools := by
    rw [htl, dedupKeep_eq_self htn, sortStrings_eq_self hts]
  have h2 : sortStrings (dedupKeep (anatomyListOf (normAnnToObj n))) = n.anatomy := by
    rw [hal, dedupKeep_eq_self han, sortStrings_eq_self has]
  have h3 : normalizePhase (rawPhaseOf (normAnnToObj n)) = n.surgical_phase := by
    rw [rawPhaseOf_toObj]
    exact phase_enum_fixed _ hp
  have h4 : pyStrip (descriptionOf (normAnnToObj n)) = n.description := by
    have hd : descriptionOf (normAnnToObj n) = n.description := by
      simp only [descriptionOf, rawDescOf_toObj]
      rw [hds, if_neg hde]
    rw [hd, hds]
  show NormAnn.mk _ _ _ _ = n
  rw [h1, h2, h3, h4]

/-- C7 (idempotence): normalizing an already-normalized annotation
yields the same annotation. -/
theorem normalizer_idempotent (kvs : List (String × Jv)) :
    normalizeAnnJson (normAnnToObj (normalizeAnnJson kvs)) = normalizeAnnJson kvs := by
  have htools := enumListOk (toolsFilteredOf kvs) toolsEnum (by decide)
    (filter_mem_enum (l := ((toListPy (rawToolsOf kvs)).map
      (fun x => pyLower (pyStrip (pyStr x)))).map synonymMapTools))
  have hanat := enumListOk (anatomyFilteredOf kvs) anatomyEnum (by decide)
    (filter_mem_enum (l := ((toListPy (rawAnatomyOf kvs)).map
      (fun x => pyLower (pyStrip (pyStr x)))).map (fun x => pyReplace x " " "_")))
  exact second_pass_fixed (normalizeAnnJson kvs)
    htools.2 (sortStrings_sorted _) (sortStrings_nodup (dedupKeep_nodup _)) htools.1
    hanat.2 (sortStrings_sorted _) (sortStrings_nodup (dedupKeep_nodup _)) hanat.1
    (normalizePhase_mem _) (pyStrip_idem _) (pyStrip_descriptionOf_ne kvs)

/-- `mkAnn` records are dicts. -/
theorem isJDict_mkAnn (ph t : String) : isJDict (mkAnn ph t) = true := rfl

/-- The sort key of a phase/timestamp record with a parsable timestamp. -/
theorem tsKey_mkAnn (ph : String) {t : String} {d : Int} (h : parseTs t = some d) :
    tsKey (mkAnn ph t) = d := by
  simp [tsKey, mkAnn, jvGet, lookupA, h]

/-- The loop guard accepts a phase/timestamp record with a parsable
timestamp. -/
theorem annPhaseTs_mkAnn {ph t : String} {d : Int} (h : parseTs t = some d) :
    annPhaseTs (mkAnn ph t) = some (ph, t, d) := by
  simp [annPhaseTs, mkAnn, jvGet, lookupA, h]

/-- Sorting annotations leaves a dict-only, already-sorted list as it is. -/
theorem sortAnns_eq_self {l : List Jv} (hd : ∀ a ∈ l, isJDict a = true)
    (hs : List.Sorted tsLe l) : sortAnns l = l := by
  rw [sortAnns, List.filter_eq_self.mpr hd, List.Sorted.insertionSort_eq hs]

/-- C1: for any annotation stream of phase/timestamp records whose
phases are `[A, A, B, A, A, A, A]` (with `A ≠ B`) and whose timestamps
parse and are spaced 5 seconds apart, under `min_consecutive = 2` and
`min_dwell = 15 s` the single-frame `B` never yields an accepted segment,
and `A` registers exactly once, in `phases_ordered`, with its original
first-seen time `t0`. -/
theorem phase_smoothing_flicker (A B : String) (hAB : A ≠ B)
    (t0 t1 t2 t3 t4 t5 t6 : String) (d0 : Int)
    (h0 : parseTs t0 = some d0) (h1 : parseTs t1 = some (d0 + 5))
    (h2 : parseTs t2 = some (d0 + 10)) (h3 : parseTs t3 = some (d0 + 15))
    (h4 : parseTs t4 = some (d0 + 20)) (h5 : parseTs t5 = some (d0 + 25))
    (h6 : parseTs t6 = some (d0 + 30)) :
    extractSegs 2 15 [mkAnn A t0, mkAnn A t1, mkAnn B t2, mkAnn A t3,
      mkAnn A t4, mkAnn A t5, mkAnn A t6] = [{ phase := A, start := t0 }] ∧
    phasesOrderedOf [{ phase := A, start := t0 }] = [A] ∧
    alLookup (phaseFirstSeenOf [{ phase := A, start := t0 }]) A = some t0 ∧
    (∀ s : Seg, s ∈ [({ phase := A, start := t0 } : Seg)] → s.phase ≠ B) := by
  have k0 := tsKey_mkAnn A h0
  have k1 := tsKey_mkAnn A h1
  have k2 := tsKey_mkAnn B h2
  have k3 := tsKey_mkAnn A h3
  have k4 := tsKey_mkAnn A h4
  have k5 := tsKey_mkAnn A h5
  have k6 := tsKey_mkAnn A h6
  have hdict : ∀ a ∈ [mkAnn A t0, mkAnn A t1, mkAnn B t2, mkAnn A t3,
      mkAnn A t4, mkAnn A t5, mkAnn A t6], isJDict a = true := by
    intro a ha
    simp only [List.mem_cons, List.not_mem_nil, or_false] at ha
    rcases ha with rfl | rfl | rfl | rfl | rfl | rfl | rfl <;> rfl
  have hsorted : List.Sorted tsLe [mkAnn A t0, mkAnn A t1, mkAnn B t2, mkAnn A t3,
      mkAnn A t4, mkAnn A t5, mkAnn A t6] := by
    simp only [List.sorted_cons, List.mem_cons, List.not_mem_nil, or_false,
      forall_eq_or_imp, forall_eq, tsLe, k0, k1, k2, k3, k4, k5, k6, List.sorted_nil, and_true,
      false_implies, implies_true]
    omega
  have e0 : smoothStep 2 15 initSmooth (mkAnn A t0) =
      ⟨some A, 1, some t0, none, none, []⟩ := by
    simp [smoothStep, runUpdate, acceptUpdate, annPhaseTs_mkAnn h0, initSmooth]
  have e1 : smoothStep 2 15 ⟨some A, 1, some t0, none, none, []⟩ (mkAnn A t1) =
      ⟨some A, 2, some t0, some A, some (d0 + 5), [{ phase := A, start := t0 }]⟩ := by
    simp [smoothStep, runUpdate, acceptUpdate, annPhaseTs_mkAnn h1]
  have e2 : smoothStep 2 15 ⟨some A, 2, some t0, some A, some (d0 + 5),
      [{ phase := A, start := t0 }]⟩ (mkAnn B t2) =
      ⟨some B, 1, some t2, some A, some (d0 + 5), [{ phase := A, start := t0 }]⟩ := by
    simp [smoothStep, runUpdate, acceptUpdate, annPhaseTs_mkAnn h2, hAB]
  have e3 : smoothStep 2 15 ⟨some B, 1, some t2, some A, some (d0 + 5),
      [{ phase := A, start := t0 }]⟩ (mkAnn A t3) =
      ⟨some A, 1, some t3, some A, some (d0 + 5), [{ phase := A, start := t0 }]⟩ := by
    simp [smoothStep, runUpdate, acceptUpdate, annPhaseTs_mkAnn h3, hAB, Ne.symm hAB]
  have e4 : smoothStep 2 15 ⟨some A, 1, some t3, some A, some (d0 + 5),
      [{ phase := A, start := t0 }]⟩ (mkAnn A t4) =
      ⟨some A, 2, some t3, some A, some (d0 + 5), [{ phase := A, start := t0 }]⟩ := by
    simp [smoothStep, runUpdate, acceptUpdate, annPhaseTs_mkAnn h4]
  have e5 : smoothStep 2 15 ⟨some A, 2, some t3, some A, some (d0 + 5),
      [{ phase := A, start := t0 }]⟩ (mkAnn A t5) =
      ⟨some A, 3, some t3, some A, some (d0 + 5), [{ phase := A, start := t0 }]⟩ := by
    simp [smoothStep, runUpdate, acceptUpdate, annPhaseTs_mkAnn h5]
  have e6 : smoothStep 2 15 ⟨some A, 3, some t3, some A, some (d0 + 5),
      [{ phase := A, start := t0 }]⟩ (mkAnn A t6) =
      ⟨some A, 4, some t3, some A, some (d0 + 5), [{ phase := A, start := t0 }]⟩ := by
    simp [smoothStep, runUpdate, acceptUpdate, annPhaseTs_mkAnn h6]
  have hmain : extractSegs 2 15 [mkAnn A t0, mkAnn A t1, mkAnn B t2, mkAnn A t3,
      mkAnn A t4, mkAnn A t5, mkAnn A t6] = [{ phase := A, start := t0 }] := by
    rw [extractSegs, sortAnns_eq_self hdict hsorted]
    rw [List.foldl_cons, e0, List.foldl_cons, e1, List.foldl_cons, e2, List.foldl_cons, e3,
      List.foldl_cons, e4, List.foldl_cons, e5, List.foldl_cons, e6, List.foldl_nil]
  refine ⟨hmain, ?_, ?_, ?_⟩
  · simp [phasesOrderedOf, phaseFold, alLookup]
  · simp [phaseFirstSeenOf, phaseFold, alLookup]
  · intro s hs
    simp only [List.mem_cons, List.not_mem_nil, or_false] at hs
    subst hs
    exact hAB

/-- Witness for C1 at concrete phases and timestamps. -/
theorem phase_smoothing_flicker_witness :
    extractSegs 2 15 [mkAnn "a" "2024-01-01 00:00:00", mkAnn "a" "2024-01-01 00:00:05",
      mkAnn "b" "2024-01-01 00:00:10", mkAnn "a" "2024-01-01 00:00:15",
      mkAnn "a" "2024-01-01 00:00:20", mkAnn "a" "2024-01-01 00:00:25",
      mkAnn "a" "2024-01-01 00:00:30"] = [{ phase := "a", start := "2024-01-01 00:00:00" }] :=
  (phase_smoothing_flicker "a" "b" (by decide)
    "2024-01-01 00:00:00" "2024-01-01 00:00:05" "2024-01-01 00:00:10" "2024-01-01 00:00:15"
    "2024-01-01 00:00:20" "2024-01-01 00:00:25" "2024-01-01 00:00:30"
    ((parseTs "2024-01-01 00:00:00").getD 0)
    (by decide) (by decide) (by decide) (by decide) (by decide) (by decide) (by decide)).1

/-- C2 (amended): for phase/timestamp streams
`[preparation ×3, calots_triangle_dissection ×4]` spaced 10 seconds
apart, under the default thresholds the transition to
`calots_triangle_dissection` is accepted exactly once — the acceptance
decision falls on the second occurrence (run length 2, dwell 30 s ≥ 15 s)
and the accepted segment carries the timestamp of the FIRST
`calots_triangle_dissection` occurrence (`t3`), the start of that run. -/
theorem phase_accept_timing (t0 t1 t2 t3 t4 t5 t6 : String) (d0 : Int)
    (h0 : parseTs t0 = some d0) (h1 : parseTs t1 = some (d0 + 10))
    (h2 : parseTs t2 = some (d0 + 20)) (h3 : parseTs t3 = some (d0 + 30))
    (h4 : parseTs t4 = some (d0 + 40)) (h5 : parseTs t5 = some (d0 + 50))
    (h6 : parseTs t6 = some (d0 + 60)) :
    extractSegs 2 15 [mkAnn "preparation" t0, mkAnn "preparation" t1, mkAnn "preparation" t2,
      mkAnn "calots_triangle_dissection" t3, mkAnn "calots_triangle_dissection" t4,
      mkAnn "calots_triangle_dissection" t5, mkAnn "calots_triangle_dissection" t6] =
      [{ phase := "preparation", start := t0 },
       { phase := "calots_triangle_dissection", start := t3 }] := by
  have hne : ("preparation" : String) ≠ "calots_triangle_dissection" := by decide
  have k0 := tsKey_mkAnn "preparation" h0
  have k1 := tsKey_mkAnn "preparation" h1
  have k2 := tsKey_mkAnn "preparation" h2
  have k3 := tsKey_mkAnn "calots_triangle_dissection" h3
  have k4 := tsKey_mkAnn "calots_triangle_dissection" h4
  have k5 := tsKey_mkAnn "calots_triangle_dissection" h5
  have k6 := tsKey_mkAnn "calots_triangle_dissection" h6
  have hdict : ∀ a ∈ [mkAnn "preparation" t0, mkAnn "preparation" t1, mkAnn "preparation" t2,
      mkAnn "calots_triangle_dissection" t3, mkAnn "calots_triangle_dissection" t4,
      mkAnn "calots_triangle_dissection" t5, mkAnn "calots_triangle_dissection" t6],
      isJDict a = true := by
    intro a ha
    simp only [List.mem_cons, List.not_mem_nil, or_false] at ha
    rcases ha with rfl | rfl | rfl | rfl | rfl | rfl | rfl <;> rfl
  have hsorted : List.Sorted tsLe [mkAnn "preparation" t0, mkAnn "preparation" t1,
      mkAnn "preparation" t2, mkAnn "calots_triangle_dissection" t3,
      mkAnn "calots_triangle_dissection" t4, mkAnn "calots_triangle_dissection" t5,
      mkAnn "calots_triangle_dissection" t6] := by
    simp only [List.sorted_cons, List.mem_cons, List.not_mem_nil, or_false,
      forall_eq_or_imp, forall_eq, tsLe, k0, k1, k2, k3, k4, k5, k6, List.sorted_nil, and_true,
      false_implies, implies_true]
    omega
  have e0 : smoothStep 2 15 initSmooth (mkAnn "preparation" t0) =
      ⟨some "preparation", 1, some t0, none, none, []⟩ := by
    simp [smoothStep, runUpdate, acceptUpdate, annPhaseTs_mkAnn h0, initSmooth]
  have e1 : smoothStep 2 15 ⟨some "preparation", 1, some t0, none, none, []⟩
      (mkAnn "preparation" t1) =
      ⟨some "preparation", 2, some t0, some "preparation", some (d0 + 10),
        [{ phase := "preparation", start := t0 }]⟩ := by
    simp [smoothStep, runUpdate, acceptUpdate, annPhaseTs_mkAnn h1]
  have e2 : smoothStep 2 15 ⟨some "preparation", 2, some t0, some "preparation", some (d0 + 10),
      [{ phase := "preparation", start := t0 }]⟩ (mkAnn "preparation" t2) =
      ⟨some "preparation", 3, some t0, some "preparation", some (d0 + 10),
        [{ phase := "preparation", start := t0 }]⟩ := by
    simp [smoothStep, runUpdate, acceptUpdate, annPhaseTs_mkAnn h2]
  have e3 : smoothStep 2 15 ⟨some "preparation", 3, some t0, some "preparation", some (d0 + 10),
      [{ phase := "preparation", start := t0 }]⟩ (mkAnn "calots_triangle_dissection" t3) =
      ⟨some "calots_triangle_dissection", 1, some t3, some "preparation", some (d0 + 10),
        [{ phase := "preparation", start := t0 }]⟩ := by
    simp [smoothStep, runUpdate, acceptUpdate, annPhaseTs_mkAnn h3, hne]
  have e4 : smoothStep 2 15 ⟨some "calots_triangle_dissection", 1, some t3, some "preparation",
      some (d0 + 10), [{ phase := "preparation", start := t0 }]⟩
      (mkAnn "calots_triangle_dissection" t4) =
      ⟨some "calots_triangle_dissection", 2, some t3, some "calots_triangle_dissection",
        some (d0 + 40),
        [{ phase := "preparation", start := t0 },
         { phase := "calots_triangle_dissection", start := t3 }]⟩ := by
    simp only [smoothStep, runUpdate, acceptUpdate, annPhaseTs_mkAnn h4]
    norm_num [hne]
  have e5 : smoothStep 2 15 ⟨some "calots_triangle_dissection", 2, some t3,
      some "calots_triangle_dissection", some (d0 + 40),
      [{ phase := "preparation", start := t0 },
       { phase := "calots_triangle_dissection", start := t3 }]⟩
      (mkAnn "calots_triangle_dissection" t5) =
      ⟨some "calots_triangle_dissection", 3, some t3, some "calots_triangle_dissection",
        some (d0 + 40),
        [{ phase := "preparation", start := t0 },
         { phase := "calots_triangle_dissection", start := t3 }]⟩ := by
    simp [smoothStep, runUpdate, acceptUpdate, annPhaseTs_mkAnn h5]
  have e6 : smoothStep 2 15 ⟨some "calots_triangle_dissection", 3, some t3,
      some "calots_triangle_dissection", some (d0 + 40),
      [{ phase := "preparation", start := t0 },
       { phase := "calots_triangle_dissection", start := t3 }]⟩
      (mkAnn "calots_triangle_dissection" t6) =
      ⟨some "calots_triangle_dissection", 4, some t3, some "calots_triangle_dissection",
        some (d0 + 40),
        [{ phase := "preparation", start := t0 },
         { phase := "calots_triangle_dissection", start := t3 }]⟩ := by
    simp [smoothStep, runUpdate, acceptUpdate, annPhaseTs_mkAnn h6]
  rw [extractSegs, sortAnns_eq_self hdict hsorted]
  rw [List.foldl_cons, e0, List.foldl_cons, e1, List.foldl_cons, e2, List.foldl_cons, e3,
    List.foldl_cons, e4, List.foldl_cons, e5, List.foldl_cons, e6, List.foldl_nil]

/-- Witness for C2 (amended) at concrete timestamps. -/
theorem phase_accept_timing_witness :
    extractSegs 2 15 [mkAnn "preparation" "2024-01-01 00:00:00",
      mkAnn "preparation" "2024-01-01 00:00:10", mkAnn "preparation" "2024-01-01 00:00:20",
      mkAnn "calots_triangle_dissection" "2024-01-01 00:00:30",
      mkAnn "calots_triangle_dissection" "2024-01-01 00:00:40",
      mkAnn "calots_triangle_dissection" "2024-01-01 00:00:50",
      mkAnn "calots_triangle_dissection" "2024-01-01 00:01:00"] =
      [{ phase := "preparation", start := "2024-01-01 00:00:00" },
       { phase := "calots_triangle_dissection", start := "2024-01-01 00:00:30" }] :=
  phase_accept_timing "2024-01-01 00:00:00" "2024-01-01 00:00:10" "2024-01-01 00:00:20"
    "2024-01-01 00:00:30" "2024-01-01 00:00:40" "2024-01-01 00:00:50" "2024-01-01 00:01:00"
    ((parseTs "2024-01-01 00:00:00").getD 0)
    (by decide) (by decide) (by decide) (by decide) (by decide) (by decide) (by decide)

/-- C2 (counterexample): on the concrete stream above, the accepted
calots segment carries the timestamp of the first calots occurrence
(00:00:30), not of the third (00:00:50) as the claim states. -/
theorem phase_accept_timing_not_third :
    (((extractSegs 2 15 [mkAnn "preparation" "2024-01-01 00:00:00",
        mkAnn "preparation" "2024-01-01 00:00:10", mkAnn "preparation" "2024-01-01 00:00:20",
        mkAnn "calots_triangle_dissection" "2024-01-01 00:00:30",
        mkAnn "calots_triangle_dissection" "2024-01-01 00:00:40",
        mkAnn "calots_triangle_dissection" "2024-01-01 00:00:50",
        mkAnn "calots_triangle_dissection" "2024-01-01 00:01:00"]).filter
          (fun s => s.phase = "calots_triangle_dissection")).map Seg.start =
      ["2024-01-01 00:00:30"]) ∧
    ¬ (((extractSegs 2 15 [mkAnn "preparation" "2024-01-01 00:00:00",
        mkAnn "preparation" "2024-01-01 00:00:10", mkAnn "preparation" "2024-01-01 00:00:20",
        mkAnn "calots_triangle_dissection" "2024-01-01 00:00:30",
        mkAnn "calots_triangle_dissection" "2024-01-01 00:00:40",
        mkAnn "calots_triangle_dissection" "2024-01-01 00:00:50",
        mkAnn "calots_triangle_dissection" "2024-01-01 00:01:00"]).filter
          (fun s => s.phase = "calots_triangle_dissection")).map Seg.start =
      ["2024-01-01 00:00:50"]) := by
  constructor
  · decide
  · decide

/-- What a successful loop guard tells us about the record. -/
theorem annPhaseTs_spec {a : Jv} {ph ts : String} {dt : Int}
    (h : annPhaseTs a = some (ph, ts, dt)) :
    parseTs ts = some dt ∧ tsKey a = dt := by
  cases a with
  | obj kvs =>
    rw [annPhaseTs] at h
    rw [tsKey]
    cases hp : jvGet (Jv.obj kvs) "surgical_phase" with
    | none => rw [hp] at h; simp at h
    | some vp =>
      cases ht : jvGet (Jv.obj kvs) "timestamp" with
      | none => rw [hp, ht] at h; cases vp <;> simp at h
      | some vt =>
        rw [hp, ht] at h
        cases vp with
        | str p =>
          cases vt with
          | str t =>
            simp only [Option.map_eq_some'] at h
            obtain ⟨d2, hd2, heq⟩ := h
            have hps : p = ph ∧ t = ts ∧ d2 = dt := by
              simpa [Prod.ext_iff] using heq
            obtain ⟨rfl, rfl, rfl⟩ := hps
            simp [hd2]
          | null => simp at h
          | bool b => simp at h
          | int n => simp at h
          | arr xs => simp at h
          | obj o => simp at h
        | null => cases vt <;> simp at h
        | bool b => cases vt <;> simp at h
        | int n => cases vt <;> simp at h
        | arr xs => cases vt <;> simp at h
        | obj o => cases vt <;> simp at h
  | null => rw [annPhaseTs] at h; simp [jvGet] at h
  | bool b => rw [annPhaseTs] at h; simp [jvGet] at h
  | int n => rw [annPhaseTs] at h; simp [jvGet] at h
  | str s => rw [annPhaseTs] at h; simp [jvGet] at h
  | arr xs => rw [annPhaseTs] at h; simp [jvGet] at h

/-- The invariant maintained by the smoothing loop, relative to the list
of records still to be processed: segment keys are non-decreasing,
consecutive segments have different phases, the last segment's key bounds
every future key, an active run has a parsable start bounding the future
and dominated by the last segment, and the accepted phase is the last
segment's phase. -/
def SInv (st : SmoothState) (l : List Jv) : Prop :=
  List.Chain' (fun s t => segKey s ≤ segKey t) st.segs ∧
  List.Chain' (fun s t => s.phase ≠ t.phase) st.segs ∧
  (∀ s ∈ st.segs.getLast?, ∀ b ∈ l, segKey s ≤ tsKey b) ∧
  (st.runPhase ≠ none →
    ∃ str d, st.runStart = some str ∧ parseTs str = some d ∧
      (∀ b ∈ l, d ≤ tsKey b) ∧ (∀ s ∈ st.segs.getLast?, segKey s ≤ d)) ∧
  (∀ s ∈ st.segs.getLast?, st.acceptedPhase = some s.phase)

/-- The acceptance gate preserves the invariant. -/
theorem acceptUpdate_inv (mc : Nat) (md : Int) (st1 : SmoothState) (l : List Jv)
    (ph : String) (dt : Int)
    (hchain : List.Chain' (fun s t => segKey s ≤ segKey t) st1.segs)
    (hphase : List.Chain' (fun s t => s.phase ≠ t.phase) st1.segs)
    (hlast : ∀ s ∈ st1.segs.getLast?, ∀ b ∈ l, segKey s ≤ tsKey b)
    (hrun : ∃ str d, st1.runStart = some str ∧ parseTs str = some d ∧
        (∀ b ∈ l, d ≤ tsKey b) ∧ (∀ s ∈ st1.segs.getLast?, segKey s ≤ d))
    (hacc : ∀ s ∈ st1.segs.getLast?, st1.acceptedPhase = some s.phase) :
    SInv (acceptUpdate mc md st1 ph dt) l := by
  have hkeep : SInv st1 l := ⟨hchain, hphase, hlast, fun _ => hrun, hacc⟩
  rw [acceptUpdate]
  split
  case isFalse h => exact hkeep
  case isTrue h =>
    obtain ⟨str, d, h1, h2, h3, h4⟩ := hrun
    have hgd : st1.runStart.getD "" = str := by rw [h1]; rfl
    have hkey : segKey { phase := ph, start := st1.runStart.getD "" } = d := by
      rw [hgd]
      simp [segKey, h2]
    have haccepted : SInv { st1 with
        segs := st1.segs ++ [{ phase := ph, start := st1.runStart.getD "" }],
        acceptedPhase := some ph, lastAcceptDt := some dt } l := by
      refine ⟨?_, ?_, ?_, ?_, ?_⟩
      · show List.Chain' _ (st1.segs ++ [{ phase := ph, start := st1.runStart.getD "" }])
        rw [List.chain'_append]
        refine ⟨hchain, List.chain'_singleton _, ?_⟩
        intro x hx y hy
        have hy2 : y = { phase := ph, start := st1.runStart.getD "" } :=
          Eq.symm (by simpa using hy)
        rw [hy2, hkey]
        exact h4 x hx
      · show List.Chain' _ (st1.segs ++ [{ phase := ph, start := st1.runStart.getD "" }])
        rw [List.chain'_append]
        refine ⟨hphase, List.chain'_singleton _, ?_⟩
        intro x hx y hy
        have hy2 : y = { phase := ph, start := st1.runStart.getD "" } :=
          Eq.symm (by simpa using hy)
        rw [hy2]
        intro hcontra
        exact h.1 (by rw [hacc x hx, hcontra])
      · intro s hs b hb
        rw [List.getLast?_concat] at hs
        have hs2 : s = { phase := ph, start := st1.runStart.getD "" } :=
          Eq.symm (by simpa using hs)
        rw [hs2, hkey]
        exact h3 b hb
      · intro _
        refine ⟨str, d, h1, h2, h3, ?_⟩
        intro s hs
        rw [List.getLast?_concat] at hs
        have hs2 : s = { phase := ph, start := st1.runStart.getD "" } :=
          Eq.symm (by simpa using hs)
        rw [hs2, hkey]
      · intro s hs
        rw [List.getLast?_concat] at hs
        have hs2 : s = { phase := ph, start := st1.runStart.getD "" } :=
          Eq.symm (by simpa using hs)
        rw [hs2]
    cases st1.lastAcceptDt with
    | none => exact haccepted
    | some dLast =>
      show SInv (if md ≤ dt - dLast then { st1 with
          segs := st1.segs ++ [{ phase := ph, start := st1.runStart.getD "" }],
          acceptedPhase := some ph, lastAcceptDt := some dt } else st1) l
      split
      · exact haccepted
      · exact hkeep

/-- One smoothing step preserves the invariant. -/
theorem smoothStep_inv (mc : Nat) (md : Int) (st : SmoothState) (a : Jv) (l : List Jv)
    (hinv : SInv st (a :: l)) (hsa : ∀ b ∈ l, tsKey a ≤ tsKey b) :
    SInv (smoothStep mc md st a) l := by
  obtain ⟨hchain, hphase, hlast, hrun, hacc⟩ := hinv
  rw [smoothStep]
  cases hap : annPhaseTs a with
  | none =>
    refine ⟨hchain, hphase, ?_, ?_, hacc⟩
    · intro s hs b hb
      exact hlast s hs b (List.mem_cons_of_mem _ hb)
    · intro hrp
      obtain ⟨str, d, h1, h2, h3, h4⟩ := hrun hrp
      exact ⟨str, d, h1, h2, fun b hb => h3 b (List.mem_cons_of_mem _ hb), h4⟩
  | some pht =>
    obtain ⟨ph, ts, dt⟩ := pht
    obtain ⟨hpts, hka⟩ := annPhaseTs_spec hap
    show SInv (acceptUpdate mc md (runUpdate st ph ts) ph dt) l
    by_cases hb1 : st.runPhase = some ph
    · have hst1 : runUpdate st ph ts = { st with runCount := st.runCount + 1 } := by
        rw [runUpdate, if_pos hb1]
      rw [hst1]
      apply acceptUpdate_inv mc md { st with runCount := st.runCount + 1 } l ph dt
        hchain hphase
      · intro s hs b hb
        exact hlast s hs b (List.mem_cons_of_mem _ hb)
      · obtain ⟨str, d, h1, h2, h3, h4⟩ := hrun (by rw [hb1]; simp)
        exact ⟨str, d, h1, h2, fun b hb => h3 b (List.mem_cons_of_mem _ hb), h4⟩
      · exact hacc
    · have hst1 : runUpdate st ph ts =
          { st with runPhase := some ph, runCount := 1, runStart := some ts } := by
        rw [runUpdate, if_neg hb1]
      rw [hst1]
      apply acceptUpdate_inv mc md
        { st with runPhase := some ph, runCount := 1, runStart := some ts } l ph dt
        hchain hphase
      · intro s hs b hb
        exact hlast s hs b (List.mem_cons_of_mem _ hb)
      · refine ⟨ts, dt, rfl, hpts, ?_, ?_⟩
        · intro b hb
          rw [← hka]
          exact hsa b hb
        · intro s hs
          have := hlast s hs a (List.mem_cons_self _ _)
          rw [hka] at this
          exact this
      · exact hacc

/-- The whole smoothing fold preserves the invariant. -/
theorem smoothFold_inv (mc : Nat) (md : Int) :
    ∀ (l : List Jv) (st : SmoothState), List.Sorted tsLe l → SInv st l →
      SInv (l.foldl (smoothStep mc md) st) [] := by
  intro l
  induction l with
  | nil =>
    intro st _ h
    exact h
  | cons a rest ih =>
    intro st hs hinv
    rw [List.foldl_cons]
    apply ih
    · exact hs.of_cons
    · exact smoothStep_inv mc md st a rest hinv (List.sorted_cons.mp hs).1

/-- C5 (amended): for every input annotation list and every threshold
configuration, the smoothed segments have non-decreasing parsed start
times (not necessarily strictly increasing), and no two consecutive
segments share the same phase. -/
theorem segs_order_invariant (mc : Nat) (md : Int) (annList : List Jv) :
    List.Chain' (fun s t => segKey s ≤ segKey t) (extractSegs mc md annList) ∧
    List.Chain' (fun s t => s.phase ≠ t.phase) (extractSegs mc md annList) := by
  have hsorted : List.Sorted tsLe (sortAnns annList) :=
    List.sorted_insertionSort _ _
  have hinit : SInv initSmooth (sortAnns annList) := by
    refine ⟨List.chain'_nil, List.chain'_nil, ?_, ?_, ?_⟩
    · intro s hs
      simp [initSmooth] at hs
    · intro h
      exact absurd rfl h
    · intro s hs
      simp [initSmooth] at hs
  have hinv := smoothFold_inv mc md (sortAnns annList) initSmooth hsorted hinit
  exact ⟨hinv.1, hinv.2.1⟩

/-- C5 (counterexample to strictness): with colliding second-resolution
timestamps two accepted segments can share the same start time, so the
segment sequence is not strictly increasing in start time. -/
theorem segs_not_strictly_increasing :
    extractSegs 2 15
      [mkAnn "a" "2024-01-01 00:00:00", mkAnn "a" "2024-01-01 00:00:00",
       mkAnn "b" "2024-01-01 00:00:00", mkAnn "b" "2024-01-01 00:00:00",
       mkAnn "b" "2024-01-01 00:00:20"] =
      [{ phase := "a", start := "2024-01-01 00:00:00" },
       { phase := "b", start := "2024-01-01 00:00:00" }] ∧
    ¬ List.Chain' (fun s t => segKey s < segKey t)
      (extractSegs 2 15
        [mkAnn "a" "2024-01-01 00:00:00", mkAnn "a" "2024-01-01 00:00:00",
         mkAnn "b" "2024-01-01 00:00:00", mkAnn "b" "2024-01-01 00:00:00",
         mkAnn "b" "2024-01-01 00:00:20"]) := by
  have h1 : extractSegs 2 15
      [mkAnn "a" "2024-01-01 00:00:00", mkAnn "a" "2024-01-01 00:00:00",
       mkAnn "b" "2024-01-01 00:00:00", mkAnn "b" "2024-01-01 00:00:00",
       mkAnn "b" "2024-01-01 00:00:20"] =
      [{ phase := "a", start := "2024-01-01 00:00:00" },
       { phase := "b", start := "2024-01-01 00:00:00" }] := by decide
  refine ⟨h1, ?_⟩
  rw [h1, List.chain'_pair]
  decide

/-- Does a note match the blood-loss pattern (non-blank stripped text on
which the search succeeds)?  Used to phrase "the first matching note". -/
def noteMatches (n : Jv) : Bool :=
  match textOfRaw n with
  | some raw =>
    pyStrip raw ≠ "" && (bloodSearch (pyLower (pyStrip raw)).toList).isSome
  | none => false

/-- The blood-loss search on any (lower-cased) text beginning with
"ebl: 250 ml" returns the captures ("250", "ml"), whatever follows. -/
theorem bloodSearch_ebl250 (tail : List Char) :
    bloodSearch ("ebl: 250 ml".toList ++ tail) = some ("250", some "ml") := by
  have hchars : "ebl: 250 ml".toList =
      ['e', 'b', 'l', ':', ' ', '2', '5', '0', ' ', 'm', 'l'] := rfl
  rw [hchars]
  simp only [List.cons_append, List.nil_append]
  simp [bloodSearch, bloodSearchAux, matchBloodAt, chompBloodKeyword, chompLit,
    headNonWord, isWordChar, takeDigitChars, startsWithL, List.dropWhile, isPySpace]
  decide

/-- A mining step never clears an already-captured blood-loss value. -/
theorem mineStep_blood {st : MineSt} {n : Jv} {st2 : MineSt} (h : mineStep st n = some st2) :
    st2.blood = st.blood ∨ st.blood = none := by
  cases hsb : st.blood with
  | none => exact Or.inr rfl
  | some v =>
    left
    rw [mineStep] at h
    cases ht : textOfRaw n with
    | none => rw [ht] at h; cases h
    | some raw =>
      rw [ht] at h
      simp only [] at h
      by_cases he : pyStrip raw = ""
      · rw [if_pos he] at h
        cases h
        exact hsb
      · rw [if_neg he] at h
        have h2 := Option.some.inj h
        subst h2
        simp only [apply_ite MineSt.blood, ite_self]
        rw [hsb]
        cases hbs : bloodSearch (pyLower (pyStrip raw)).toList with
        | none => simp only [apply_ite MineSt.blood, ite_self, hsb]
        | some p =>
          obtain ⟨v2, u2⟩ := p
          simp only [apply_ite MineSt.blood, ite_self, hsb]

/-- A step on a note that matches (first blood-loss capture `(v, u)`)
while no estimate is stored captures `f"{v} {u or ml}"`. -/
theorem mineStep_blood_first {st : MineSt} {n : Jv} {raw : String} {v : String}
    {u : Option String} {st2 : MineSt}
    (ht : textOfRaw n = some raw) (hne : pyStrip raw ≠ "")
    (hbs : bloodSearch (pyLower (pyStrip raw)).toList = some (v, u))
    (hsb : st.blood = none) (h : mineStep st n = some st2) :
    st2.blood = some (v ++ " " ++ u.getD "ml") := by
  rw [mineStep, ht] at h
  simp only [] at h
  rw [if_neg hne] at h
  have h2 := Option.some.inj h
  subst h2
  simp only [apply_ite MineSt.blood, ite_self, hsb, hbs]

/-- A step on a non-matching note keeps the estimate unset. -/
theorem mineStep_blood_nomatch {st : MineSt} {n : Jv} {st2 : MineSt}
    (hm : noteMatches n = false) (hsb : st.blood = none) (h : mineStep st n = some st2) :
    st2.blood = none := by
  rw [mineStep] at h
  cases ht : textOfRaw n with
  | none => rw [ht] at h; cases h
  | some raw =>
    rw [ht] at h
    simp only [] at h
    rw [noteMatches, ht] at hm
    simp only [] at hm
    by_cases he : pyStrip raw = ""
    · rw [if_pos he] at h
      cases h
      exact hsb
    · rw [if_neg he] at h
      have hbs : bloodSearch (pyLower (pyStrip raw)).toList = none := by
        cases hbs2 : bloodSearch (pyLower (pyStrip raw)).toList with
        | none => rfl
        | some p =>
          rw [hbs2] at hm
          simp [he] at hm
      have h2 := Option.some.inj h
      subst h2
      simp only [apply_ite MineSt.blood, ite_self, hsb, hbs]

/-- A captured estimate survives the rest of the fold. -/
theorem mineNotes_blood_stable : ∀ (l : List Jv) (st m : MineSt) (v : String),
    st.blood = some v → mineNotes l st = some m → m.blood = some v := by
  intro l
  induction l with
  | nil =>
    intro st m v hb h
    simp only [mineNotes] at h
    obtain rfl := Option.some.inj h
    exact hb
  | cons n rest ih =>
    intro st m v hb h
    simp only [mineNotes] at h
    cases hstep : mineStep st n with
    | none => rw [hstep] at h; cases h
    | some stb =>
      rw [hstep] at h
      rcases mineStep_blood hstep with h1 | h1
      · exact ih stb m v (by rw [h1, hb]) h
      · rw [h1] at hb
        cases hb

/-- Without any matching note the estimate stays unset. -/
theorem mineNotes_blood_nomatch : ∀ (l : List Jv) (st m : MineSt),
    (∀ n ∈ l, noteMatches n = false) → st.blood = none → mineNotes l st = some m →
    m.blood = none := by
  intro l
  induction l with
  | nil =>
    intro st m _ hb h
    simp only [mineNotes] at h
    obtain rfl := Option.some.inj h
    exact hb
  | cons n rest ih =>
    intro st m hall hb h
    simp only [mineNotes] at h
    cases hstep : mineStep st n with
    | none => rw [hstep] at h; cases h
    | some stb =>
      rw [hstep] at h
      exact ih stb m (fun q hq => hall q (List.mem_cons_of_mem _ hq))
        (mineStep_blood_nomatch (hall n (List.mem_cons_self _ _)) hb hstep) h

/-- The first matching note wins: after non-matching notes, the note
whose text yields captures `(v, u)` fixes the estimate for good. -/
theorem mineNotes_blood_first : ∀ (pre : List Jv) (st : MineSt) (n : Jv) (rest : List Jv)
    (raw : String) (v : String) (u : Option String) (m : MineSt),
    (∀ p ∈ pre, noteMatches p = false) → st.blood = none →
    textOfRaw n = some raw → pyStrip raw ≠ "" →
    bloodSearch (pyLower (pyStrip raw)).toList = some (v, u) →
    mineNotes (pre ++ n :: rest) st = some m →
    m.blood = some (v ++ " " ++ u.getD "ml") := by
  intro pre
  induction pre with
  | nil =>
    intro st n rest raw v u m _ hsb ht hne hbs h
    rw [List.nil_append] at h
    simp only [mineNotes] at h
    cases hstep : mineStep st n with
    | none => rw [hstep] at h; cases h
    | some stb =>
      rw [hstep] at h
      exact mineNotes_blood_stable rest stb m _ (mineStep_blood_first ht hne hbs hsb hstep) h
  | cons p ps ih =>
    intro st n rest raw v u m hpre hsb ht hne hbs h
    rw [List.cons_append] at h
    simp only [mineNotes] at h
    cases hstep : mineStep st p with
    | none => rw [hstep] at h; cases h
    | some stb =>
      rw [hstep] at h
      exact ih stb n rest raw v u m (fun q hq => hpre q (List.mem_cons_of_mem _ hq))
        (mineStep_blood_nomatch (hpre p (List.mem_cons_self _ _)) hsb hstep) ht hne hbs h

/-- The extracted facts carry exactly the mined blood-loss estimate. -/
theorem extractFacts_blood {cfg : Cfg} {annList noteList : List Jv} {f : Facts}
    (hf : extractFacts cfg annList noteList = some f) :
    ∃ mined, mineNotes (sortNotes noteList) initMine = some mined ∧
      f.blood_loss_estimate = mined.blood := by
  rw [extractFacts] at hf
  simp only [] at hf
  cases hagg : aggToolsAnatomy (sortAnns annList) ([], []) with
  | none => rw [hagg] at hf; cases hf
  | some pair =>
    obtain ⟨ts, an⟩ := pair
    cases hmine : mineNotes (sortNotes noteList) initMine with
    | none => rw [hagg, hmine] at hf; cases hf
    | some mined =>
      rw [hagg, hmine] at hf
      refine ⟨mined, rfl, ?_⟩
      have h2 := Option.some.inj hf
      rw [← h2]

/-- The composed note's blood-loss field is the mined value with the
"Not specified" fallback. -/
theorem buildFinalJson_blood {cfg : Cfg} {f : Facts} {p : PostOpNote}
    (h : buildFinalJson cfg f = some p) :
    p.blood_loss_estimate = pyOrStr f.blood_loss_estimate "Not specified" := by
  rw [buildFinalJson] at h
  simp only [] at h
  split at h
  · split at h
    · cases h
    · have h2 := Option.some.inj h
      rw [← h2]
      simp [apply_ite PostOpNote.blood_loss_estimate, ite_self]
  · have h2 := Option.some.inj h
    rw [← h2]
    simp [apply_ite PostOpNote.blood_loss_estimate, ite_self]

/-- Texts starting with "EBL: 250 ml" match the pattern with captures
("250", "ml"), and are in particular non-blank. -/
theorem bloodSearch_of_startsWith {s : String} {tail : List Char}
    (h : s.toList = "EBL: 250 ml".toList ++ tail) :
    bloodSearch (pyLower s).toList = some ("250", some "ml") ∧ s ≠ "" := by
  constructor
  · have hl : (pyLower s).toList = "ebl: 250 ml".toList ++ tail.map Char.toLower := by
      rw [pyLower, List.toList_asString, h, List.map_append]
      congr 1
    rw [hl]
    exact bloodSearch_ebl250 _
  · intro hs
    rw [hs, show ("" : String).toList = ([] : List Char) from rfl] at h
    have hlen := congrArg List.length h
    simp only [List.length_nil, List.length_append,
      show ("EBL: 250 ml".toList).length = 11 from rfl] at hlen
    omega

/-- C6 (amended): if the stripped text of some note in sorted order
starts with "EBL: 250 ml" and no earlier note matches the blood-loss
pattern, the extracted facts carry `blood_loss_estimate = "250 ml"` and
the composed note carries that value; if no note matches the pattern the
composed note's field is "Not specified"; the first matching note wins.
(Merely containing "EBL: 250 ml" is not enough: an earlier match inside
the same text wins instead, see the counterexample.) -/
theorem blood_loss_extraction (cfg : Cfg) (annList noteList : List Jv) (f : Facts)
    (hf : extractFacts cfg annList noteList = some f) :
    (∀ (pre : List Jv) (n : Jv) (rest : List Jv) (raw : String) (tail : List Char),
      sortNotes noteList = pre ++ n :: rest →
      (∀ p ∈ pre, noteMatches p = false) →
      textOfRaw n = some raw →
      (pyStrip raw).toList = "EBL: 250 ml".toList ++ tail →
      f.blood_loss_estimate = some "250 ml" ∧
      (∀ p, buildFinalJson cfg f = some p → p.blood_loss_estimate = "250 ml")) ∧
    ((∀ nn ∈ sortNotes noteList, noteMatches nn = false) →
      f.blood_loss_estimate = none ∧
      (∀ p, buildFinalJson cfg f = some p → p.blood_loss_estimate = "Not specified")) := by
  obtain ⟨mined, hmine, hfb⟩ := extractFacts_blood hf
  constructor
  · intro pre n rest raw tail hsplit hpre hraw hstart
    obtain ⟨hbs, hne⟩ := bloodSearch_of_startsWith hstart
    have hblood : mined.blood = some ("250" ++ " " ++ (some "ml").getD "ml") := by
      apply mineNotes_blood_first pre initMine n rest raw "250" (some "ml") mined hpre rfl hraw
        hne hbs
      rw [← hsplit]
      exact hmine
    have hfb2 : f.blood_loss_estimate = some "250 ml" := by
      rw [hfb, hblood]
      rfl
    refine ⟨hfb2, ?_⟩
    intro p hp
    rw [buildFinalJson_blood hp, hfb2]
    rfl
  · intro hall
    have hblood : mined.blood = none :=
      mineNotes_blood_nomatch (sortNotes noteList) initMine mined hall rfl hmine
    have hfb2 : f.blood_loss_estimate = none := by rw [hfb, hblood]
    refine ⟨hfb2, ?_⟩
    intro p hp
    rw [buildFinalJson_blood hp, hfb2]
    rfl

/-- A concrete note whose stripped text starts with "EBL: 250 ml". -/
def noteW : Jv :=
  .obj [("timestamp", .str "2024-01-01 10:00:00"), ("text", .str "EBL: 250 ml noted")]

/-- An inert facts record for `Option.getD`. -/
def emptyFactsW : Facts := ⟨none, none, none, [], [], [], [], [], [], [], [], none, none, none⟩

/-- The facts extracted for the concrete witness note. -/
def factsW : Facts := (extractFacts defaultCfg [] [noteW]).getD emptyFactsW

/-- Witness for C6 (amended) at the concrete witness note. -/
theorem blood_loss_extraction_witness :
    extractFacts defaultCfg [] [noteW] = some factsW ∧
    factsW.blood_loss_estimate = some "250 ml" :=
  ⟨rfl, ((blood_loss_extraction defaultCfg [] [noteW] factsW rfl).1
      [] noteW [] "EBL: 250 ml noted" " noted".toList rfl (by simp) rfl rfl).1⟩

/-- A note that CONTAINS "EBL: 250 ml" but whose text has an earlier
blood-loss match. -/
def noteCx : Jv :=
  .obj [("timestamp", .str "2024-01-01 10:00:00"),
        ("text", .str "blood loss 7 then EBL: 250 ml")]

/-- C6 (counterexample): the note's text contains "EBL: 250 ml" and no
earlier note matches, yet the extracted estimate is "7 ml" — the first
match inside the text ("blood loss 7") wins, refuting the claim as
stated. -/
theorem blood_loss_not_250 :
    strHasSub "blood loss 7 then EBL: 250 ml" "EBL: 250 ml" = true ∧
    (extractFacts defaultCfg [] [noteCx]).map Facts.blood_loss_estimate = some (some "7 ml") ∧
    ¬ ((extractFacts defaultCfg [] [noteCx]).map Facts.blood_loss_estimate =
        some (some "250 ml")) := by
  refine ⟨by decide, by decide, by decide⟩
